import Mathlib

/-! # RentEase: listing identity, filter/sort pipeline and favourite synchronisation

A shallow embedding of the browser scripts `flats.js`, `home.js`, `new-flats.js`,
`register.js` and `login.js`.

* A listing object is a record of optional fields (`none` = the property is
  absent, i.e. reads as `undefined`).  Text is a Lean `String`, that is a
  sequence of Unicode scalar values.
* The platform functions the scripts call (`JSON.stringify`, `parseFloat`,
  `String.prototype.trim`, `toLowerCase`, `includes`, `Array.prototype.sort`)
  are embedded as executable definitions that follow ECMA-262.
* `localStorage` is a record with one slot per key the scripts use; a slot is
  classified by what `JSON.parse` makes of its text.
* Exceptions are values: a handler returns the state it leaves and the exception
  that stopped it, if any.
-/

namespace RentEase

/-! ## Listings -/

/-- A listing object as the scripts read it.  `new-flats.js` builds it from
form `.value` strings (and the `ac` checkbox); `flats.js` adds `isFavorite`. -/
structure Flat where
  city : Option String
  street : Option String
  number : Option String
  area : Option String
  ac : Option Bool
  yearBuilt : Option String
  price : Option String
  availableDate : Option String
  isFavorite : Option Bool
deriving DecidableEq, Repr

/-- The object literal returned by `getCoreProperties`. -/
structure CoreProps where
  city : Option String
  street : Option String
  number : Option String
  area : Option String
  yearBuilt : Option String
deriving DecidableEq, Repr

/-- `getCoreProperties` (flats.js 223-231, home.js 199-207). -/
def getCoreProperties (flat : Flat) : CoreProps :=
  { city := flat.city
    street := flat.street
    number := flat.number
    area := flat.area
    yearBuilt := flat.yearBuilt }

/-! ## `JSON.stringify` on the core-property object -/

/-- Lower-case hexadecimal digit of a number below 16. -/
def hexDigit (n : Nat) : Char :=
  if n < 10 then Char.ofNat (48 + n) else Char.ofNat (87 + n)

/-- Value of a lower-case hexadecimal digit (0 for any other character). -/
def hexVal (c : Char) : Nat :=
  if 48 ≤ c.toNat ∧ c.toNat < 58 then c.toNat - 48
  else if 97 ≤ c.toNat ∧ c.toNat < 103 then c.toNat - 87
  else 0

/-- One code point of `QuoteJSONString` (ECMA-262 25.5.2.3): the two-character
escapes, `\u00xx` for the other control characters, the character itself
otherwise. -/
def quoteChar (c : Char) : List Char :=
  if c = Char.ofNat 8 then ['\\', 'b']
  else if c = Char.ofNat 9 then ['\\', 't']
  else if c = Char.ofNat 10 then ['\\', 'n']
  else if c = Char.ofNat 12 then ['\\', 'f']
  else if c = Char.ofNat 13 then ['\\', 'r']
  else if c = '"' then ['\\', '"']
  else if c = '\\' then ['\\', '\\']
  else if c.toNat < 32 then
    ['\\', 'u', '0', '0', hexDigit (c.toNat / 16), hexDigit (c.toNat % 16)]
  else [c]

/-- The escaped body of a JSON string. -/
def quoteChars : List Char → List Char
  | [] => []
  | c :: cs => quoteChar c ++ quoteChars cs

/-- `QuoteJSONString`: the escaped body between two double quotes. -/
def quoteJSONString (s : String) : List Char :=
  '"' :: (quoteChars s.data ++ ['"'])

/-- The properties `JSON.stringify` serialises: a property whose value is
`undefined` is skipped (ECMA-262 25.5.2.5 SerializeJSONObject). -/
def jsonMembers : List (String × Option String) → List (String × String)
  | [] => []
  | (_, none) :: ps => jsonMembers ps
  | (k, some v) :: ps => (k, v) :: jsonMembers ps

/-- One serialised member: quoted key, a colon, quoted value. -/
def jsonMember (m : String × String) : List Char :=
  quoteJSONString m.1 ++ ':' :: quoteJSONString m.2

/-- The members after the first one, each preceded by a comma, then the
closing brace. -/
def jsonTail : List (String × String) → List Char
  | [] => ['}']
  | m :: ms => ',' :: (jsonMember m ++ jsonTail ms)

/-- The serialised object: members joined by commas between braces. -/
def jsonObject : List (String × String) → List Char
  | [] => ['{', '}']
  | m :: ms => '{' :: (jsonMember m ++ jsonTail ms)

/-- The own properties of a core-property object, in creation order. -/
def CoreProps.properties (c : CoreProps) : List (String × Option String) :=
  [("city", c.city), ("street", c.street), ("number", c.number),
   ("area", c.area), ("yearBuilt", c.yearBuilt)]

/-- `JSON.stringify(core)` for the object literal built by `getCoreProperties`. -/
def jsonStringifyCore (c : CoreProps) : String :=
  String.mk (jsonObject (jsonMembers c.properties))

/-- The serialised identity key `JSON.stringify(getCoreProperties(flat))`. -/
def coreKey (flat : Flat) : String :=
  jsonStringifyCore (getCoreProperties flat)

/-! ### Decoding, used to show the serialisation is injective -/

/-- Reads back one escaped code point from the front of a string body. A raw
double quote ends the body and is not a code point. -/
def unquoteChar : List Char → Option (Char × List Char)
  | [] => none
  | c :: r =>
    if c = '"' then none
    else if c = '\\' then
      match r with
      | [] => none
      | e :: r1 =>
        if e = 'b' then some (Char.ofNat 8, r1)
        else if e = 't' then some (Char.ofNat 9, r1)
        else if e = 'n' then some (Char.ofNat 10, r1)
        else if e = 'f' then some (Char.ofNat 12, r1)
        else if e = 'r' then some (Char.ofNat 13, r1)
        else if e = '"' then some ('"', r1)
        else if e = '\\' then some ('\\', r1)
        else if e = 'u' then
          match r1 with
          | _ :: _ :: a :: b :: r2 => some (Char.ofNat (hexVal a * 16 + hexVal b), r2)
          | _ => none
        else none
    else some (c, r)

/-! ## Numbers and `parseFloat` -/

/-- Exceptions raised by the platform. -/
inductive JsError
  | typeError
  | syntaxError
deriving DecidableEq, Repr

/-- Equality of outcomes is decidable when it is for results and exceptions. -/
instance instDecidableEqExcept {ε α : Type} [DecidableEq ε] [DecidableEq α] :
    DecidableEq (Except ε α)
  | .ok a, .ok b => if h : a = b then isTrue (by rw [h]) else isFalse (by intro h2; cases h2; exact h rfl)
  | .error a, .error b =>
    if h : a = b then isTrue (by rw [h]) else isFalse (by intro h2; cases h2; exact h rfl)
  | .ok _, .error _ => isFalse (by intro h; cases h)
  | .error _, .ok _ => isFalse (by intro h; cases h)

/-- A Number value as far as comparison can observe it: `NaN`, the two
infinities, or a finite double given by the rational it denotes (the two zeros
are one value). -/
inductive JSNum
  | nan
  | negInf
  | fin (q : ℚ)
  | posInf
deriving DecidableEq

namespace JSNum

/-- `isNaN(x)`. -/
def isNaN : JSNum → Bool
  | nan => true
  | _ => false

/-- `x < y` (ECMA-262 IsLessThan; `undefined`, i.e. a NaN operand, gives false). -/
def lt : JSNum → JSNum → Bool
  | nan, _ => false
  | _, nan => false
  | negInf, negInf => false
  | negInf, _ => true
  | fin _, negInf => false
  | fin a, fin b => decide (a < b)
  | fin _, posInf => true
  | posInf, _ => false

/-- `x > y`. -/
def gt (x y : JSNum) : Bool := lt y x

/-- `x <= y`: false on a NaN operand, otherwise not `y < x`. -/
def le (x y : JSNum) : Bool := !x.isNaN && !y.isNaN && !lt y x

/-- `x >= y`: false on a NaN operand, otherwise not `x < y`. -/
def ge (x y : JSNum) : Bool := !x.isNaN && !y.isNaN && !lt x y

/-- `x || 0` on a Number: NaN and zero are falsy. -/
def orZero : JSNum → JSNum
  | nan => fin 0
  | x => x

/-- Negation. -/
def neg : JSNum → JSNum
  | nan => nan
  | negInf => posInf
  | fin q => fin (-q)
  | posInf => negInf

end JSNum

/-- Position of the highest set bit (`0` for `0` and `1`); `fuel` bounds the
number of halvings. -/
def log2Floor : Nat → Nat → Nat
  | 0, _ => 0
  | fuel + 1, n => if n < 2 then 0 else log2Floor fuel (n / 2) + 1

/-- Nearest integer to `n / d`, ties to even. -/
def roundHalfEven (n d : Nat) : Nat :=
  let q := n / d
  let r := n % d
  if 2 * r < d then q
  else if d < 2 * r then q + 1
  else if q % 2 = 0 then q else q + 1

/-- The double nearest to the positive rational `n / d` (round to nearest, ties
to even, 53-bit significand, gradual underflow, overflow to `+Infinity`). -/
def roundDouble (n d : Nat) : JSNum :=
  if n = 0 ∨ d = 0 then JSNum.fin 0
  else
    let e0 : Int := (log2Floor n n : Int) - (log2Floor d d : Int)
    let below : Bool := if 0 ≤ e0 then decide (n < d * 2 ^ e0.toNat) else decide (n * 2 ^ (-e0).toNat < d)
    let e : Int := if below then e0 - 1 else e0
    let s : Int := max e (-1022) - 52
    if 0 ≤ s then
      let m := roundHalfEven n (d * 2 ^ s.toNat)
      if 1024 ≤ log2Floor m m + s.toNat then JSNum.posInf
      else JSNum.fin (mkRat (m * 2 ^ s.toNat) 1)
    else
      let m := roundHalfEven (n * 2 ^ (-s).toNat) d
      JSNum.fin (mkRat m (2 ^ (-s).toNat))

/-- WhiteSpace and LineTerminator code points (ECMA-262 12.2, 12.3), the set
stripped by `trim` and skipped by `parseFloat`. -/
def isWhiteSpace (c : Char) : Bool :=
  let n := c.toNat
  n = 9 || n = 10 || n = 11 || n = 12 || n = 13 || n = 32 || n = 160 || n = 0x1680
    || (0x2000 ≤ n && n ≤ 0x200A) || n = 0x2028 || n = 0x2029 || n = 0x202F
    || n = 0x205F || n = 0x3000 || n = 0xFEFF

/-- Value of a run of decimal digits. -/
def digitsValue (ds : List Char) : Nat :=
  ds.foldl (fun acc c => 10 * acc + (c.toNat - 48)) 0

/-- The exponent of an ExponentPart at the front of the text (`e` or `E`, an
optional sign, at least one digit); `0` when there is none. -/
def exponentPart : List Char → Int
  | [] => 0
  | c :: r =>
    if c = 'e' ∨ c = 'E' then
      match r with
      | [] => 0
      | s :: r1 =>
        if s = '-' then
          (if (r1.takeWhile Char.isDigit).isEmpty then 0
           else - (digitsValue (r1.takeWhile Char.isDigit) : Int))
        else if s = '+' then (digitsValue (r1.takeWhile Char.isDigit) : Int)
        else (digitsValue ((s :: r1).takeWhile Char.isDigit) : Int)
    else 0

/-- The Number denoted by the longest prefix that is a StrUnsignedDecimalLiteral,
`none` when no prefix is one. -/
def unsignedDecimal (cs : List Char) : Option JSNum :=
  if "Infinity".data.isPrefixOf cs then some JSNum.posInf
  else
    let ip := cs.takeWhile Char.isDigit
    let r1 := cs.dropWhile Char.isDigit
    let fp := match r1 with
      | '.' :: t => t.takeWhile Char.isDigit
      | _ => []
    let r2 := match r1 with
      | '.' :: t => t.dropWhile Char.isDigit
      | _ => r1
    if ip.isEmpty && fp.isEmpty then none
    else
      let ex : Int := exponentPart r2 - (fp.length : Int)
      let digits := digitsValue (ip ++ fp)
      if 0 ≤ ex then some (roundDouble (digits * 10 ^ ex.toNat) 1)
      else some (roundDouble digits (10 ^ (-ex).toNat))

/-- `parseFloat` on text (ECMA-262 19.2.4): leading white space is skipped, the
longest prefix that is a StrDecimalLiteral is converted, `NaN` if there is none. -/
def parseFloatChars (cs : List Char) : JSNum :=
  match cs.dropWhile isWhiteSpace with
  | '-' :: r => match unsignedDecimal r with
    | some x => x.neg
    | none => JSNum.nan
  | '+' :: r => (unsignedDecimal r).getD JSNum.nan
  | r => (unsignedDecimal r).getD JSNum.nan

/-- `parseFloat(s)` for a string. -/
def parseFloat (s : String) : JSNum := parseFloatChars s.data

/-- `parseFloat(v)` for a property value: `undefined` converts to the text
"undefined", which has no numeric prefix. -/
def parseFloatValue : Option String → JSNum
  | none => JSNum.nan
  | some s => parseFloat s

/-! ## Text helpers -/

/-- `String.prototype.trim`: white space and line terminators are removed from
both ends. -/
def trim (s : String) : String :=
  String.mk ((s.data.dropWhile isWhiteSpace).reverse.dropWhile isWhiteSpace).reverse

/-- `String.prototype.toLowerCase` on text whose cased letters are ASCII: `A`-`Z`
map to `a`-`z`, every other character is kept.  On other text the platform
function lowers more letters; what is stated of arbitrary city texts is stated
of `filterFlatsWith` and `sortFlatsWith` below, which take the lower-casing
function as an argument. -/
def toLowerCase (s : String) : String :=
  String.mk (s.data.map Char.toLower)

/-- Whether `needle` occurs in `hay` as a contiguous run. -/
def includesChars : List Char → List Char → Bool
  | [], needle => needle.isEmpty
  | h :: t, needle => needle.isPrefixOf (h :: t) || includesChars t needle

/-- `String.prototype.includes`. -/
def includes (hay needle : String) : Bool :=
  includesChars hay.data needle.data

/-- UTF-16 code units of a character. -/
def utf16Units (c : Char) : List Nat :=
  if c.toNat < 0x10000 then [c.toNat]
  else [0xD800 + (c.toNat - 0x10000) / 0x400, 0xDC00 + (c.toNat - 0x10000) % 0x400]

/-- UTF-16 code units of a text. -/
def utf16 : List Char → List Nat
  | [] => []
  | c :: cs => utf16Units c ++ utf16 cs

/-- Lexicographic `<` on code-unit sequences. -/
def unitsLt : List Nat → List Nat → Bool
  | _, [] => false
  | [], _ :: _ => true
  | a :: as, b :: bs => decide (a < b) || (decide (a = b) && unitsLt as bs)

/-- `x < y` on strings (ECMA-262 IsLessThan: code unit by code unit). -/
def stringLt (x y : String) : Bool :=
  unitsLt (utf16 x.data) (utf16 y.data)

/-! ## The filter and sort pipeline (`applyFiltersAndRender`, flats.js 238-319) -/

/-- The `.value` of the five filter inputs. -/
structure FilterInputs where
  filterCity : String
  filterMinPrice : String
  filterMaxPrice : String
  filterMinArea : String
  filterMaxArea : String
deriving DecidableEq, Repr

/-- Callback of the city filter:
`flat.city && flat.city.toLowerCase().includes(filterCity)` (an absent or empty
city is falsy). -/
def cityCallback (filterCity : String) (flat : Flat) : Bool :=
  match flat.city with
  | none => false
  | some c => c ≠ "" && includes (toLowerCase c) filterCity

/-- Callback `flat.price !== undefined && parseFloat(flat.price) >= filterMinPrice`. -/
def minPriceCallback (filterMinPrice : JSNum) (flat : Flat) : Bool :=
  flat.price.isSome && (parseFloatValue flat.price).ge filterMinPrice

/-- Callback `flat.price !== undefined && parseFloat(flat.price) <= filterMaxPrice`. -/
def maxPriceCallback (filterMaxPrice : JSNum) (flat : Flat) : Bool :=
  flat.price.isSome && (parseFloatValue flat.price).le filterMaxPrice

/-- Callback `flat.area !== undefined && parseFloat(flat.area) >= filterMinArea`. -/
def minAreaCallback (filterMinArea : JSNum) (flat : Flat) : Bool :=
  flat.area.isSome && (parseFloatValue flat.area).ge filterMinArea

/-- Callback `flat.area !== undefined && parseFloat(flat.area) <= filterMaxArea`. -/
def maxAreaCallback (filterMaxArea : JSNum) (flat : Flat) : Bool :=
  flat.area.isSome && (parseFloatValue flat.area).le filterMaxArea

/-- The filter stage (flats.js 240-292): the inputs are read, then each of the
five filters is applied in turn when its guard holds. -/
def filterFlats (inp : FilterInputs) (allFlatsArray : List Flat) : List Flat :=
  let filterCity := toLowerCase (trim inp.filterCity)
  let filterMinPrice := parseFloat inp.filterMinPrice
  let filterMaxPrice := parseFloat inp.filterMaxPrice
  let filterMinArea := parseFloat inp.filterMinArea
  let filterMaxArea := parseFloat inp.filterMaxArea
  let filteredFlats := allFlatsArray
  let filteredFlats :=
    if filterCity ≠ "" then filteredFlats.filter (cityCallback filterCity) else filteredFlats
  let filteredFlats :=
    if !filterMinPrice.isNaN then filteredFlats.filter (minPriceCallback filterMinPrice)
    else filteredFlats
  let filteredFlats :=
    if !filterMaxPrice.isNaN then filteredFlats.filter (maxPriceCallback filterMaxPrice)
    else filteredFlats
  let filteredFlats :=
    if !filterMinArea.isNaN then filteredFlats.filter (minAreaCallback filterMinArea)
    else filteredFlats
  let filteredFlats :=
    if !filterMaxArea.isNaN then filteredFlats.filter (maxAreaCallback filterMaxArea)
    else filteredFlats
  filteredFlats

/-- The sort keys offered by the page (`data-sort-by`). -/
inductive SortKey
  | city
  | price
  | area
deriving DecidableEq, Repr

/-- The two values of `currentSortOrder`. -/
inductive SortOrder
  | asc
  | desc
deriving DecidableEq, Repr

/-- Property read `flat[currentSortBy]`. -/
def Flat.get (flat : Flat) : SortKey → Option String
  | .city => flat.city
  | .price => flat.price
  | .area => flat.area

/-- The value compared for a numeric key: `parseFloat(flat[key]) || 0`. -/
def numericKey (key : SortKey) (flat : Flat) : JSNum :=
  (parseFloatValue (flat.get key)).orZero

/-- The last three lines of the comparator, given the outcomes of
`valA < valB` and `valA > valB`. -/
def orderResult (currentSortOrder : SortOrder) (less greater : Bool) : Int :=
  if less then (if currentSortOrder = .asc then -1 else 1)
  else if greater then (if currentSortOrder = .asc then 1 else -1)
  else 0

/-- The comparator passed to `sort` (flats.js 296-314).  For `city` a string
`valA` is lower-cased and then `valB.toLowerCase()` is called, which raises a
TypeError when `valB` is `undefined`; when `valA` is `undefined` neither
comparison holds. -/
def sortComparator (currentSortBy : SortKey) (currentSortOrder : SortOrder)
    (a b : Flat) : Except JsError Int :=
  if currentSortBy = .price ∨ currentSortBy = .area then
    let valA := numericKey currentSortBy a
    let valB := numericKey currentSortBy b
    .ok (orderResult currentSortOrder (valA.lt valB) (valA.gt valB))
  else
    match a.get currentSortBy with
    | some sa =>
      match b.get currentSortBy with
      | some sb =>
        let valA := toLowerCase sa
        let valB := toLowerCase sb
        .ok (orderResult currentSortOrder (stringLt valA valB) (stringLt valB valA))
      | none => .error .typeError
    | none => .ok (orderResult currentSortOrder false false)

/-- Inserts `x` before the first element it does not sort after. -/
def sortInsert {α ε : Type} (comparefn : α → α → Except ε Int) (x : α) :
    List α → Except ε (List α)
  | [] => .ok [x]
  | y :: ys =>
    match comparefn x y with
    | .error e => .error e
    | .ok c =>
      if c ≤ 0 then .ok (x :: y :: ys)
      else
        match sortInsert comparefn x ys with
        | .error e => .error e
        | .ok r => .ok (y :: r)

/-- `Array.prototype.sort(comparefn)` (ECMA-262 23.1.3.30): a stable sort, here
by insertion from the right; an exception of the comparator is propagated.  For
a consistent comparator the result is the one every conforming engine returns.
Which of two elements an engine passes as the first argument is left to the
implementation; here it is the element being inserted, the earlier of the two. -/
def arraySort {α ε : Type} (comparefn : α → α → Except ε Int) :
    List α → Except ε (List α)
  | [] => .ok []
  | x :: xs =>
    match arraySort comparefn xs with
    | .error e => .error e
    | .ok sorted => sortInsert comparefn x sorted

/-- The sort stage (flats.js 295-315): skipped when `currentSortBy` is null. -/
def sortFlats (currentSortBy : Option SortKey) (currentSortOrder : SortOrder)
    (filteredFlats : List Flat) : Except JsError (List Flat) :=
  match currentSortBy with
  | none => .ok filteredFlats
  | some key => arraySort (sortComparator key currentSortOrder) filteredFlats

/-- The sequence `applyFiltersAndRender` hands to `renderFlatsTable`. -/
def applyFiltersAndRender (inp : FilterInputs) (currentSortBy : Option SortKey)
    (currentSortOrder : SortOrder) (allFlatsArray : List Flat) :
    Except JsError (List Flat) :=
  sortFlats currentSortBy currentSortOrder (filterFlats inp allFlatsArray)

/-! ## Persisted collections (`localStorage`) -/

/-- What `localStorage` holds under one key, classified by what `JSON.parse`
makes of it. -/
inductive Stored
  /-- Nothing stored: `getItem` returns `null`. -/
  | absent
  /-- The text of a JSON array of listing objects. -/
  | array (flats : List Flat)
  /-- The text of a JSON value that is not an array; `truthy` tells whether the
  value is truthy (an object, `true`, a non-zero number, a non-empty string). -/
  | nonArray (truthy : Bool)
  /-- Non-empty text that is not JSON: `JSON.parse` raises a SyntaxError. -/
  | invalid
deriving DecidableEq, Repr

/-- The two keys used by the listing pages. -/
structure Storage where
  renteaseFlats : Stored
  favoriteFlats : Stored
deriving DecidableEq, Repr

/-- The idiom `JSON.parse(localStorage.getItem(key)) || []` followed by the first
array method called on the result.  `JSON.parse(null)` is `null`, a falsy value
gives `[]`, a truthy value that is not an array has no `some`, `filter` or
`findIndex`, so that call raises a TypeError. -/
def parseOrEmpty : Stored → Except JsError (List Flat)
  | .absent => .ok []
  | .array flats => .ok flats
  | .nonArray false => .ok []
  | .nonArray true => .error .typeError
  | .invalid => .error .syntaxError

/-- The listings a page load reads from a slot holding a collection. -/
def Stored.listings : Stored → List Flat
  | .array flats => flats
  | _ => []

/-- A slot that holds a collection: nothing yet, or an array of listings. -/
def Stored.isCollection : Stored → Bool
  | .absent => true
  | .array _ => true
  | _ => false

/-- The flag as the page reads it: `flatData.isFavorite || false` (flats.js 156). -/
def Flat.favorite (flat : Flat) : Bool :=
  flat.isFavorite.getD false

/-- The assignment `flat.isFavorite = value`. -/
def setFavorite (value : Bool) (flat : Flat) : Flat :=
  { flat with isFavorite := some value }

/-- The array after `g` is applied in place to its first element satisfying `p`
(the element `find` / `findIndex` locate); unchanged when there is none. -/
def updateFirst (p : Flat → Bool) (g : Flat → Flat) : List Flat → List Flat
  | [] => []
  | f :: fs => if p f then g f :: fs else f :: updateFirst p g fs

/-- How a handler ends: the state it leaves behind and the exception that
stopped it, if any. -/
structure Outcome (σ : Type) where
  state : σ
  error : Option JsError

/-! ## Favorite Synchronizer -/

/-- State of the all-flats page: the in-memory `allFlatsArray` and the storage. -/
structure FlatsPage where
  allFlatsArray : List Flat
  storage : Storage
deriving DecidableEq, Repr

/-- The `change` handler of the favourite checkbox (flats.js 159-206), with
`masterFlatsArray = allFlatsArray` and `checked = favButton.checked`.  The
handler ends by calling `applyFiltersAndRender()`, which writes nothing and is
not part of this state transformer. -/
def favoriteChange (flatData : Flat) (checked : Bool) (page : FlatsPage) :
    Outcome FlatsPage :=
  let targetFlatIdentifingProps := getCoreProperties flatData
  let isTarget := fun (f : Flat) =>
    decide (jsonStringifyCore (getCoreProperties f) = jsonStringifyCore targetFlatIdentifingProps)
  -- the located object, after `targetFlatInMaster.isFavorite = favButton.checked`
  let targetFlatInMaster := (page.allFlatsArray.find? isTarget).map (setFavorite checked)
  let masterFlatsArray := updateFirst isTarget (setFavorite checked) page.allFlatsArray
  let storage1 : Storage := { page.storage with renteaseFlats := .array masterFlatsArray }
  match parseOrEmpty storage1.favoriteFlats with
  | .error e => ⟨⟨masterFlatsArray, storage1⟩, some e⟩
  | .ok favoriteFlats =>
    let currentFlatCorePropsString := jsonStringifyCore (getCoreProperties flatData)
    let favoriteFlats :=
      if checked then
        if !favoriteFlats.any (fun favFlat =>
            decide (jsonStringifyCore (getCoreProperties favFlat) = currentFlatCorePropsString))
        then favoriteFlats ++ [targetFlatInMaster.getD flatData]
        else favoriteFlats
      else
        favoriteFlats.filter (fun favFlat =>
          decide (jsonStringifyCore (getCoreProperties favFlat) ≠ currentFlatCorePropsString))
    ⟨⟨masterFlatsArray, { storage1 with favoriteFlats := .array favoriteFlats }⟩, none⟩

/-- State of the favourites page: its in-memory `allFlatsArray` (the favourites
on display) and the storage. -/
structure HomePage where
  allFlatsArray : List Flat
  storage : Storage
deriving DecidableEq, Repr

/-- The `click` handler of the Remove button (home.js 148-186).  As above the
closing `applyFiltersAndRender()` is not part of the state transformer. -/
def removeClick (flatData : Flat) (page : HomePage) : Outcome HomePage :=
  match parseOrEmpty page.storage.favoriteFlats with
  | .error e => ⟨page, some e⟩
  | .ok favoriteFlats =>
    let currentFlatCorePropsString := jsonStringifyCore (getCoreProperties flatData)
    let favoriteFlats := favoriteFlats.filter (fun favFlat =>
      decide (jsonStringifyCore (getCoreProperties favFlat) ≠ currentFlatCorePropsString))
    let storage1 : Storage := { page.storage with favoriteFlats := .array favoriteFlats }
    let allFlatsArray := page.allFlatsArray.filter (fun flatInArray =>
      decide (jsonStringifyCore (getCoreProperties flatInArray) ≠ currentFlatCorePropsString))
    match parseOrEmpty storage1.renteaseFlats with
    | .error e => ⟨⟨allFlatsArray, storage1⟩, some e⟩
    | .ok allRentEaseFlats =>
      let isMain := fun (f : Flat) =>
        decide (jsonStringifyCore (getCoreProperties f) = currentFlatCorePropsString)
      -- `mainFlatIndex > -1`
      if allRentEaseFlats.any isMain then
        let allRentEaseFlats := updateFirst isMain (setFavorite false) allRentEaseFlats
        ⟨⟨allFlatsArray, { storage1 with renteaseFlats := .array allRentEaseFlats }⟩, none⟩
      else ⟨⟨allFlatsArray, storage1⟩, none⟩

/-! ## Sequences of user actions -/

/-- A user action on one of the two listing pages. -/
inductive Action
  | toggle (flatData : Flat) (checked : Bool)
  | remove (flatData : Flat)
deriving DecidableEq, Repr

/-- The storage after one action.  Each page assigns its `allFlatsArray` once,
when it loads (flats.js 330-335 from `renteaseFlats`, home.js 297-302 from
`favoriteFlats`), and its handlers keep the array and the slot equal, so the
handler runs on the listings of the slot. -/
def act (s : Storage) : Action → Outcome Storage
  | .toggle flatData checked =>
    let o := favoriteChange flatData checked ⟨s.renteaseFlats.listings, s⟩
    ⟨o.state.storage, o.error⟩
  | .remove flatData =>
    let o := removeClick flatData ⟨s.favoriteFlats.listings, s⟩
    ⟨o.state.storage, o.error⟩

/-- An action the page offers: the checkbox of a listing on display on the
all-flats page, or the Remove button of a listing on the favourites page. -/
def Action.offered (s : Storage) : Action → Prop
  | .toggle flatData _ => flatData ∈ s.renteaseFlats.listings
  | .remove flatData => flatData ∈ s.favoriteFlats.listings

/-- The states reached from `s0` by offered actions. -/
inductive Reachable (s0 : Storage) : Storage → Prop
  | start : Reachable s0 s0
  | step {s : Storage} (a : Action) :
      Reachable s0 s → a.offered s → Reachable s0 (act s a).state

/-- The starting point: both slots hold collections, no listing is flagged as a
favourite and the favourites are empty. -/
def Initial (s : Storage) : Prop :=
  s.renteaseFlats.isCollection = true ∧ s.favoriteFlats.isCollection = true ∧
  (∀ r ∈ s.renteaseFlats.listings, r.isFavorite ≠ some true) ∧
  s.favoriteFlats.listings = []

/-! ## The contract of the filter and sort engines, in the words of the specification -/

/-- The city criterion the input supplies: the trimmed, lower-cased text, absent
when that text is empty. -/
def cityCriterion (inp : FilterInputs) : Option String :=
  let text := toLowerCase (trim inp.filterCity)
  if text = "" then none else some text

/-- A numeric bound the input supplies: the best-effort numeric parse of its text,
absent when the parse fails. -/
def boundCriterion (text : String) : Option JSNum :=
  let bound := parseFloat text
  if bound.isNaN then none else some bound

/-- City criterion: the listing has a city whose lower-cased text contains the
criterion text. -/
def satisfiesCity (criterion : String) (flat : Flat) : Bool :=
  match flat.city with
  | none => false
  | some city => includes (toLowerCase city) criterion

/-- Lower bound on a field: the field is present and its numeric value is at
least the bound. -/
def satisfiesMin (bound : JSNum) : Option String → Bool
  | none => false
  | some value => (parseFloat value).ge bound

/-- Upper bound on a field: the field is present and its numeric value is at
most the bound. -/
def satisfiesMax (bound : JSNum) : Option String → Bool
  | none => false
  | some value => (parseFloat value).le bound

/-- An absent criterion imposes no constraint. -/
def whenSupplied {β : Type} (criterion : Option β) (holds : β → Bool) : Bool :=
  match criterion with
  | none => true
  | some c => holds c

/-- The listing satisfies every supplied criterion, each on its own. -/
def satisfiesAll (inp : FilterInputs) (flat : Flat) : Bool :=
  whenSupplied (cityCriterion inp) (fun c => satisfiesCity c flat) &&
  whenSupplied (boundCriterion inp.filterMinPrice) (fun b => satisfiesMin b flat.price) &&
  whenSupplied (boundCriterion inp.filterMaxPrice) (fun b => satisfiesMax b flat.price) &&
  whenSupplied (boundCriterion inp.filterMinArea) (fun b => satisfiesMin b flat.area) &&
  whenSupplied (boundCriterion inp.filterMaxArea) (fun b => satisfiesMax b flat.area)

/-- The relation by which `sort` places `a` before `b` on a numeric key: the
comparator does not return a positive number. -/
def numericBefore (k : SortKey) (o : SortOrder) (a b : Flat) : Prop :=
  orderResult o ((numericKey k a).lt (numericKey k b)) ((numericKey k a).gt (numericKey k b)) ≤ 0

instance instDecidableNumericBefore (k : SortKey) (o : SortOrder) :
    DecidableRel (numericBefore k o) :=
  fun a b => by unfold numericBefore; infer_instance

/-- Two records denote the same flat: their identity keys, the tuples (city,
street, number, area, yearBuilt), are equal. -/
def sameFlat (L f : Flat) : Bool :=
  decide (getCoreProperties f = getCoreProperties L)

/-- The record the toggle appends to the favourites: the located master record,
now flagged, or the listing itself when the master list has no record with its
identity key. -/
def favoriteCopy (master : List Flat) (L : Flat) : Flat :=
  match master.find? (sameFlat L) with
  | some t => setFavorite true t
  | none => L

/-- A record flagged as favourite is never preceded by a record with the same
identity key: only the first record of a key is ever flagged. -/
def FlagFirst (all : List Flat) : Prop :=
  all.Pairwise (fun a b => b.isFavorite = some true → getCoreProperties b ≠ getCoreProperties a)

/-- The cross-collection invariant: the identity keys of the All-Listings records
with isFavorite = true are exactly the identity keys present in Favorites. -/
def KeysAgree (all favs : List Flat) : Prop :=
  ∀ k : CoreProps,
    (∃ r ∈ all, r.isFavorite = some true ∧ getCoreProperties r = k) ↔
    (∃ r ∈ favs, getCoreProperties r = k)

/-- What is carried along a sequence of actions: both slots hold collections,
only first records are flagged, and the key sets agree. -/
def Inv (s : Storage) : Prop :=
  s.renteaseFlats.isCollection = true ∧ s.favoriteFlats.isCollection = true ∧
  FlagFirst s.renteaseFlats.listings ∧
  KeysAgree s.renteaseFlats.listings s.favoriteFlats.listings

/-! ## The favourites page filter (`applyFiltersAndRender`, home.js 212-265) -/

/-- The five filter inputs of the favourites page; `none` when the page has no
such element (`getElementById` returns `null`), otherwise its `.value`. -/
structure HomeFilterInputs where
  filterCityInput : Option String
  filterMinPriceInput : Option String
  filterMaxPriceInput : Option String
  filterMinAreaInput : Option String
  filterMaxAreaInput : Option String
deriving DecidableEq, Repr

/-- One numeric step of the favourites page: applied when the input element
exists and its value parses. -/
def homeBoundStep (input : Option String) (callback : JSNum → Flat → Bool)
    (filteredFlats : List Flat) : List Flat :=
  match input with
  | none => filteredFlats
  | some value =>
    if !(parseFloat value).isNaN then filteredFlats.filter (callback (parseFloat value))
    else filteredFlats

/-- The filter stage of the favourites page (home.js 219-265): as on the
all-flats page, each step guarded by the existence of its input element. -/
def homeFilterFlats (inp : HomeFilterInputs) (allFlatsArray : List Flat) : List Flat :=
  let filteredFlats := allFlatsArray
  let filteredFlats :=
    match inp.filterCityInput with
    | none => filteredFlats
    | some value =>
      let filterCity := toLowerCase (trim value)
      if filterCity ≠ "" then filteredFlats.filter (cityCallback filterCity) else filteredFlats
  let filteredFlats := homeBoundStep inp.filterMinPriceInput minPriceCallback filteredFlats
  let filteredFlats := homeBoundStep inp.filterMaxPriceInput maxPriceCallback filteredFlats
  let filteredFlats := homeBoundStep inp.filterMinAreaInput minAreaCallback filteredFlats
  let filteredFlats := homeBoundStep inp.filterMaxAreaInput maxAreaCallback filteredFlats
  filteredFlats

/-! ## Loading a collection when a page starts -/

/-- The value assigned to `allFlatsArray` by the page-load code. -/
inductive Loaded
  /-- An array of listings. -/
  | flats (flats : List Flat)
  /-- A value that is not an array. -/
  | notArray
deriving DecidableEq, Repr

/-- The load of flats.js 330-335 and home.js 297-302:
`if (stored) { allFlatsArray = JSON.parse(stored) } else { allFlatsArray = [] }`.
The stored text of a JSON value is a non-empty string, hence truthy; there is no
`try` around `JSON.parse`. -/
def loadStored : Stored → Except JsError Loaded
  | .absent => .ok (.flats [])
  | .array flats => .ok (.flats flats)
  | .nonArray _ => .ok .notArray
  | .invalid => .error .syntaxError

/-- The load of the all-flats page, from `renteaseFlats`. -/
def flatsPageLoad (storage : Storage) : Except JsError Loaded :=
  loadStored storage.renteaseFlats

/-- The load of the favourites page, from `favoriteFlats`. -/
def homePageLoad (storage : Storage) : Except JsError Loaded :=
  loadStored storage.favoriteFlats

/-! ## More of the contract in the words of the specification -/

/-- A set of criteria, each optional. -/
structure Criteria where
  city : Option String
  minPrice : Option JSNum
  maxPrice : Option JSNum
  minArea : Option JSNum
  maxArea : Option JSNum

/-- The criteria a set of inputs supplies. -/
def criteriaOf (inp : FilterInputs) : Criteria :=
  { city := cityCriterion inp
    minPrice := boundCriterion inp.filterMinPrice
    maxPrice := boundCriterion inp.filterMaxPrice
    minArea := boundCriterion inp.filterMinArea
    maxArea := boundCriterion inp.filterMaxArea }

/-- The listing satisfies every criterion of the set that is present. -/
def Criteria.satisfiedBy (c : Criteria) (flat : Flat) : Bool :=
  whenSupplied c.city (fun t => satisfiesCity t flat) &&
  whenSupplied c.minPrice (fun b => satisfiesMin b flat.price) &&
  whenSupplied c.maxPrice (fun b => satisfiesMax b flat.price) &&
  whenSupplied c.minArea (fun b => satisfiesMin b flat.area) &&
  whenSupplied c.maxArea (fun b => satisfiesMax b flat.area)

/-- The subsequence of the listings that satisfy the criteria. -/
def filterBy (c : Criteria) (flats : List Flat) : List Flat :=
  flats.filter c.satisfiedBy

/-- `x <= y` on strings: not `y < x`. -/
def stringLe (x y : String) : Bool :=
  !stringLt y x

/-- `x >= y` on strings: not `x < y`. -/
def stringGe (x y : String) : Bool :=
  !stringLt x y

/-- The lower-cased city of a listing whose city is a string (the empty text for
a listing without one). -/
def lowerCity (flat : Flat) : String :=
  match flat.city with
  | some city => toLowerCase city
  | none => ""

/-- The comparator for `city` on listings whose city is a string. -/
def cityCompare (o : SortOrder) (a b : Flat) : Int :=
  orderResult o (stringLt (lowerCity a) (lowerCity b)) (stringLt (lowerCity b) (lowerCity a))

/-- The relation by which `sort` places `a` before `b` on the city key. -/
def cityBefore (o : SortOrder) (a b : Flat) : Prop :=
  cityCompare o a b ≤ 0

instance instDecidableCityBefore (o : SortOrder) : DecidableRel (cityBefore o) :=
  fun a b => by unfold cityBefore; infer_instance

/-- The sort keys of two listings compare equal: equal `parseFloat(..) || 0` for
price and area, equal lower-cased text for two string cities. -/
def sortKeysEqual : SortKey → Flat → Flat → Prop
  | .city, a, b => ∃ sa sb, a.city = some sa ∧ b.city = some sb ∧ toLowerCase sa = toLowerCase sb
  | .price, a, b => numericKey .price a = numericKey .price b
  | .area, a, b => numericKey .area a = numericKey .area b

/-! ## Registration of a flat (new-flats.js 141-213) -/

/-- The values the submit handler reads from the form. -/
structure FlatForm where
  city : String
  street : String
  number : String
  area : String
  ac : Bool
  yearBuilt : String
  price : String
  availableDate : String
deriving DecidableEq, Repr

/-- `new Flat(city, street, number, area, ac, yearBuilt, price, availableDate)`
(new-flats.js 52-63): every field is set, `isFavorite` is not. -/
def newFlat (form : FlatForm) : Flat :=
  { city := some form.city
    street := some form.street
    number := some form.number
    area := some form.area
    ac := some form.ac
    yearBuilt := some form.yearBuilt
    price := some form.price
    availableDate := some form.availableDate
    isFavorite := none }

/-- How the submit handler of the new-flat form ends. -/
inductive RegisterFlatResult
  /-- `checkValidity()` failed: the handler returns at once. -/
  | invalidForm
  /-- A stored flat has the same core properties: alert, nothing written. -/
  | duplicate
  /-- The flat was appended and the collection written. -/
  | added
  /-- An exception was caught by the `catch` clause: alert, nothing written. -/
  | failed (e : JsError)
deriving DecidableEq, Repr

/-- The submit handler of the new-flat form (new-flats.js 142-213) as a
transformer of the `renteaseFlats` slot; `formValid` is the outcome of
`registrationForm.checkValidity()`. -/
def registerFlat (formValid : Bool) (form : FlatForm) (renteaseFlats : Stored) :
    Stored × RegisterFlatResult :=
  if !formValid then (renteaseFlats, .invalidForm)
  else
    let flat := newFlat form
    match parseOrEmpty renteaseFlats with
    | .error e => (renteaseFlats, .failed e)
    | .ok existingFlats =>
      let newFlatCorePropsString := jsonStringifyCore (getCoreProperties flat)
      if existingFlats.any (fun f =>
          decide (jsonStringifyCore (getCoreProperties f) = newFlatCorePropsString))
      then (renteaseFlats, .duplicate)
      else (.array (existingFlats ++ [flat]), .added)

/-! ## Rendering (flats.js 94-156) -/

/-- A table row: a listing with its eight data cells and the state of the
favourite checkbox in the ninth cell, or the one-cell message row. -/
inductive TableRow
  | listing (cells : List String) (favoriteChecked : Bool)
  | message (text : String) (colSpan : Nat)
deriving DecidableEq, Repr

/-- The text of a data cell:
`propValue !== undefined && propValue !== null ? propValue.toString() : 'N/A'`. -/
def cellText : Option String → String
  | some propValue => propValue
  | none => "N/A"

/-- `createFlatRow` (flats.js 126-156, 212-214): the row appended to the table. -/
def createFlatRow (flatData : Flat) : TableRow :=
  let propertiesToDisplay : List (Option String) :=
    [flatData.city, flatData.street, flatData.number, flatData.area,
     some (if flatData.ac = some true then "Yes" else "No"),
     flatData.yearBuilt, flatData.price, flatData.availableDate]
  .listing (propertiesToDisplay.map cellText) (flatData.isFavorite.getD false)

/-- `renderFlatsTable` (flats.js 94-117) on a page that has the table body: the
rows of the table after the call. -/
def renderFlatsTable (flatsToDisplay : List Flat) : List TableRow :=
  if flatsToDisplay.length > 0 then flatsToDisplay.map createFlatRow
  else [.message "No flats match the current filters or no flats available." 9]

/-! ## Session (flats.js 6-51, 322-338; home.js 288-304) -/

/-- The two `sessionStorage` entries; `none` when `getItem` returns `null`. -/
structure Session where
  currentUserEmail : Option String
  loginTimestamp : Option String
deriving DecidableEq, Repr

/-- Truthiness of a `getItem` result: `null` and the empty string are falsy. -/
def truthyItem : Option String → Bool
  | some s => s ≠ ""
  | none => false

/-- `parseInt(text, 10)` (ECMA-262 19.2.5): leading white space is skipped, an
optional sign and the longest run of decimal digits are read, `NaN` when there is
no digit; the integer is converted to the nearest double. -/
def parseInt10 (s : String) : JSNum :=
  let digitsOf := fun (r : List Char) =>
    if (r.takeWhile Char.isDigit).isEmpty then JSNum.nan
    else roundDouble (digitsValue (r.takeWhile Char.isDigit)) 1
  match s.data.dropWhile isWhiteSpace with
  | '-' :: r => (digitsOf r).neg
  | '+' :: r => digitsOf r
  | r => digitsOf r

/-- The double nearest to the fraction `num / den`. -/
def roundFraction (num : Int) (den : Nat) : JSNum :=
  if num < 0 then (roundDouble num.natAbs den).neg else roundDouble num.natAbs den

/-- `x - y` on Numbers (ECMA-262 Number::subtract): the exact difference of two
finite values, rounded to the nearest double. -/
def JSNum.sub : JSNum → JSNum → JSNum
  | .nan, _ => .nan
  | _, .nan => .nan
  | .posInf, .posInf => .nan
  | .negInf, .negInf => .nan
  | .posInf, _ => .posInf
  | .negInf, _ => .negInf
  | .fin _, .posInf => .negInf
  | .fin _, .negInf => .posInf
  | .fin a, .fin b => roundFraction (a.num * b.den - b.num * a.den) (a.den * b.den)

/-- `SESSION_DURATION_MS = 60 * 60 * 1000`. -/
def SESSION_DURATION_MS : Nat := 60 * 60 * 1000

/-- `validateSession` (flats.js 15-51): the value returned and the session it
leaves; `now` is `Date.now()`. -/
def validateSession (now : Nat) (session : Session) : Bool × Session :=
  if !truthyItem session.currentUserEmail then (false, session)
  else if !truthyItem session.loginTimestamp then
    (false, { session with currentUserEmail := none })
  else
    let loginTimestamp := parseInt10 (session.loginTimestamp.getD "")
    let currentTime := JSNum.fin now
    if (currentTime.sub loginTimestamp).gt (JSNum.fin SESSION_DURATION_MS) then
      (false, { currentUserEmail := none, loginTimestamp := none })
    else (true, session)

/-- The start of the all-flats page (flats.js 322-338): `none` when the handler
returns before the load, otherwise the outcome of the load, which is followed by
`applyFiltersAndRender()`.  `initializeNavbar()` touches neither collection and
is left out. -/
def flatsPageStart (now : Nat) (session : Session) (storage : Storage) :
    Option (Except JsError Loaded) :=
  if !(validateSession now session).1 then none
  else some (flatsPageLoad storage)

/-- The start of the favourites page (home.js 288-304): `none` when the handler
returns before the load, otherwise the outcome of the load, which is followed by
`applyFiltersAndRender()`. -/
def homePageStart (session : Session) (storage : Storage) :
    Option (Except JsError Loaded) :=
  if !truthyItem session.currentUserEmail then none
  else some (homePageLoad storage)

/-! ## Arrays in memory: the pipeline with its copies and its in-place sort -/

/-- The arrays of the page, addressed by reference. -/
structure Heap where
  arrays : List (List Flat)
deriving DecidableEq, Repr

/-- The elements of the array behind a reference. -/
def Heap.read (h : Heap) (ref : Nat) : List Flat :=
  h.arrays.getD ref []

/-- A new array with the given elements: the heap with it and its reference. -/
def Heap.alloc (h : Heap) (elements : List Flat) : Heap × Nat :=
  ({ arrays := h.arrays ++ [elements] }, h.arrays.length)

/-- The array behind a reference is overwritten in place. -/
def Heap.write (h : Heap) (ref : Nat) (elements : List Flat) : Heap :=
  { arrays := h.arrays.set ref elements }

/-- One guarded step `if (guard) { filteredFlats = filteredFlats.filter(callback) }`:
`filter` returns a new array, to which the variable then refers. -/
def filterStep (guard : Bool) (callback : Flat → Bool) (st : Heap × Nat) : Heap × Nat :=
  if guard then st.1.alloc ((st.1.read st.2).filter callback) else st

/-- `applyFiltersAndRender` (flats.js 238-317) on the heap: `[...allFlatsArray]`
is a new array, each filter makes another, and `sort` reorders in place the array
`filteredFlats` refers to.  The result is the heap and the reference handed to
`renderFlatsTable`. -/
def applyFiltersAndRenderOnHeap (inp : FilterInputs) (currentSortBy : Option SortKey)
    (currentSortOrder : SortOrder) (allFlatsArray : Nat) (h : Heap) :
    Except JsError (Heap × Nat) :=
  let filterCity := toLowerCase (trim inp.filterCity)
  let filterMinPrice := parseFloat inp.filterMinPrice
  let filterMaxPrice := parseFloat inp.filterMaxPrice
  let filterMinArea := parseFloat inp.filterMinArea
  let filterMaxArea := parseFloat inp.filterMaxArea
  let st := h.alloc (h.read allFlatsArray)
  let st := filterStep (decide (filterCity ≠ "")) (cityCallback filterCity) st
  let st := filterStep (!filterMinPrice.isNaN) (minPriceCallback filterMinPrice) st
  let st := filterStep (!filterMaxPrice.isNaN) (maxPriceCallback filterMaxPrice) st
  let st := filterStep (!filterMinArea.isNaN) (minAreaCallback filterMinArea) st
  let st := filterStep (!filterMaxArea.isNaN) (maxAreaCallback filterMaxArea) st
  match currentSortBy with
  | none => .ok st
  | some key =>
    match arraySort (sortComparator key currentSortOrder) (st.1.read st.2) with
    | .error e => .error e
    | .ok sorted => .ok (st.1.write st.2 sorted, st.2)

/-! ## Accounts (register.js, login.js) -/

/-- An account object (register.js 1-9). -/
structure User where
  email : String
  password : String
  firstName : String
  lastName : String
  birthDate : String
deriving DecidableEq, Repr

/-- What `localStorage` holds under `users`, classified as for the collections. -/
inductive StoredUsers
  | absent
  | array (users : List User)
  | nonArray (truthy : Bool)
  | invalid
deriving DecidableEq, Repr

/-- `JSON.parse(localStorage.getItem(USER_KEY)) || []` followed by the first
array method called on the result (`some`, `find`). -/
def parseUsersOrEmpty : StoredUsers → Except JsError (List User)
  | .absent => .ok []
  | .array users => .ok users
  | .nonArray false => .ok []
  | .nonArray true => .error .typeError
  | .invalid => .error .syntaxError

/-- The `users` entry and the session. -/
structure AccountState where
  users : StoredUsers
  session : Session
deriving DecidableEq, Repr

/-- LineTerminator code points, which `.` does not match. -/
def isLineTerminator (c : Char) : Bool :=
  c.toNat = 10 || c.toNat = 13 || c.toNat = 0x2028 || c.toNat = 0x2029

/-- The class `[a-zA-Z]`. -/
def isPatternLetter (c : Char) : Bool :=
  (97 ≤ c.toNat && c.toNat ≤ 122) || (65 ≤ c.toNat && c.toNat ≤ 90)

/-- The class of special characters of the password pattern. -/
def isPatternSpecial (c : Char) : Bool :=
  "!@#$%^&*()_+-=[]{};':\"\\|,.<>/?~`".data.contains c

/-- `passwordPattern.test(value)` for
`/^(?=.*[a-zA-Z])(?=.*\d)(?=.*[!@#$%^&*()_+\-=\[\]{};':"\\|,.<>\/?~`]).{6,}$/`:
the whole text is at least six code units none of which is a line terminator,
and it holds a letter, a digit and a special character. -/
def passwordPattern (value : String) : Bool :=
  value.data.all (fun c => !isLineTerminator c) &&
  decide (6 ≤ (utf16 value.data).length) &&
  value.data.any isPatternLetter &&
  value.data.any Char.isDigit &&
  value.data.any isPatternSpecial

/-- The values the registration handler reads from its form. -/
structure RegisterForm where
  firstName : String
  lastName : String
  email : String
  birthDate : String
  password : String
  confirmPassword : String
deriving DecidableEq, Repr

/-- How the registration handler ends. -/
inductive RegisterResult
  | invalidForm
  | weakPassword
  | passwordMismatch
  | emailTaken
  | registered
  | failed (e : JsError)
deriving DecidableEq, Repr

/-- The submit handler of the registration form (register.js 23-107);
`formValid` is the outcome of `checkValidity()`, `now` is `Date.now()`. -/
def registerSubmit (formValid : Bool) (now : Nat) (form : RegisterForm)
    (st : AccountState) : AccountState × RegisterResult :=
  let passwordValue := form.password
  if !formValid then (st, .invalidForm)
  else if !passwordPattern passwordValue then (st, .weakPassword)
  else if passwordValue ≠ form.confirmPassword then (st, .passwordMismatch)
  else
    let newUser : User :=
      { email := form.email, password := passwordValue, firstName := form.firstName,
        lastName := form.lastName, birthDate := form.birthDate }
    match parseUsersOrEmpty st.users with
    | .error e => (st, .failed e)
    | .ok existingUsers =>
      if existingUsers.any (fun user => decide (user.email = form.email)) then (st, .emailTaken)
      else
        ({ users := .array (existingUsers ++ [newUser])
           session := { currentUserEmail := some newUser.email
                        loginTimestamp := some (toString now) } },
         .registered)

/-- How the login handler ends. -/
inductive LoginResult
  | invalidForm
  | missingInput
  | loggedIn (user : User)
  | invalidCredentials
  | failed (e : JsError)
deriving DecidableEq, Repr

/-- The submit handler of the login form (login.js 7-57); `emailValue` and
`passwordValue` are the `.value` of the two inputs. -/
def loginSubmit (formValid : Bool) (now : Nat) (emailValue passwordValue : String)
    (st : AccountState) : AccountState × LoginResult :=
  if !formValid then (st, .invalidForm)
  else
    let email := trim emailValue
    let password := trim passwordValue
    if email = "" ∨ password = "" then (st, .missingInput)
    else
      match parseUsersOrEmpty st.users with
      | .error e => (st, .failed e)
      | .ok existingUsers =>
        match existingUsers.find? (fun user =>
            decide (user.email = email) && decide (user.password = password)) with
        | some foundUser =>
          ({ st with session := { currentUserEmail := some foundUser.email
                                  loginTimestamp := some (toString now) } },
           .loggedIn foundUser)
        | none => (st, .invalidCredentials)

/-! ## The city steps with the platform's lower-casing as a parameter

`String.prototype.toLowerCase` maps cased letters outside ASCII as well, which
`toLowerCase` above does not.  The definitions of this section are the city
filter and the string comparator with the lower-casing function as an argument,
so that what is proved of them for every such function holds of the platform's;
`filterFlats`, `homeFilterFlats` and `sortFlats` are their instances at
`toLowerCase`. -/

/-- Callback of the city filter,
`flat.city && flat.city.toLowerCase().includes(filterCity)`, for any lower-casing
function `lower` in the place of `String.prototype.toLowerCase`. -/
def cityCallbackWith (lower : String → String) (filterCity : String) (flat : Flat) : Bool :=
  match flat.city with
  | none => false
  | some c => c ≠ "" && includes (lower c) filterCity

/-- The filter stage of the all-flats page (flats.js 240-292) for any
lower-casing function. -/
def filterFlatsWith (lower : String → String) (inp : FilterInputs)
    (allFlatsArray : List Flat) : List Flat :=
  let filterCity := lower (trim inp.filterCity)
  let filterMinPrice := parseFloat inp.filterMinPrice
  let filterMaxPrice := parseFloat inp.filterMaxPrice
  let filterMinArea := parseFloat inp.filterMinArea
  let filterMaxArea := parseFloat inp.filterMaxArea
  let filteredFlats := allFlatsArray
  let filteredFlats :=
    if filterCity ≠ "" then filteredFlats.filter (cityCallbackWith lower filterCity)
    else filteredFlats
  let filteredFlats :=
    if !filterMinPrice.isNaN then filteredFlats.filter (minPriceCallback filterMinPrice)
    else filteredFlats
  let filteredFlats :=
    if !filterMaxPrice.isNaN then filteredFlats.filter (maxPriceCallback filterMaxPrice)
    else filteredFlats
  let filteredFlats :=
    if !filterMinArea.isNaN then filteredFlats.filter (minAreaCallback filterMinArea)
    else filteredFlats
  let filteredFlats :=
    if !filterMaxArea.isNaN then filteredFlats.filter (maxAreaCallback filterMaxArea)
    else filteredFlats
  filteredFlats

/-- The filter stage of the favourites page (home.js 219-265) for any
lower-casing function. -/
def homeFilterFlatsWith (lower : String → String) (inp : HomeFilterInputs)
    (allFlatsArray : List Flat) : List Flat :=
  let filteredFlats := allFlatsArray
  let filteredFlats :=
    match inp.filterCityInput with
    | none => filteredFlats
    | some value =>
      let filterCity := lower (trim value)
      if filterCity ≠ "" then filteredFlats.filter (cityCallbackWith lower filterCity)
      else filteredFlats
  let filteredFlats := homeBoundStep inp.filterMinPriceInput minPriceCallback filteredFlats
  let filteredFlats := homeBoundStep inp.filterMaxPriceInput maxPriceCallback filteredFlats
  let filteredFlats := homeBoundStep inp.filterMinAreaInput minAreaCallback filteredFlats
  let filteredFlats := homeBoundStep inp.filterMaxAreaInput maxAreaCallback filteredFlats
  filteredFlats

/-- The comparator passed to `sort` (flats.js 296-314) for any lower-casing
function. -/
def sortComparatorWith (lower : String → String) (currentSortBy : SortKey)
    (currentSortOrder : SortOrder) (a b : Flat) : Except JsError Int :=
  if currentSortBy = .price ∨ currentSortBy = .area then
    let valA := numericKey currentSortBy a
    let valB := numericKey currentSortBy b
    .ok (orderResult currentSortOrder (valA.lt valB) (valA.gt valB))
  else
    match a.get currentSortBy with
    | some sa =>
      match b.get currentSortBy with
      | some sb =>
        let valA := lower sa
        let valB := lower sb
        .ok (orderResult currentSortOrder (stringLt valA valB) (stringLt valB valA))
      | none => .error .typeError
    | none => .ok (orderResult currentSortOrder false false)

/-- The sort stage (flats.js 295-315) for any lower-casing function. -/
def sortFlatsWith (lower : String → String) (currentSortBy : Option SortKey)
    (currentSortOrder : SortOrder) (filteredFlats : List Flat) : Except JsError (List Flat) :=
  match currentSortBy with
  | none => .ok filteredFlats
  | some key => arraySort (sortComparatorWith lower key currentSortOrder) filteredFlats

/-- The lower-cased city of a listing whose city is a string, for any lower-casing
function (the empty text for a listing without a city). -/
def lowerCityWith (lower : String → String) (flat : Flat) : String :=
  match flat.city with
  | some city => lower city
  | none => ""

/-- The comparator for `city` on listings whose city is a string. -/
def cityCompareWith (lower : String → String) (o : SortOrder) (a b : Flat) : Int :=
  orderResult o (stringLt (lowerCityWith lower a) (lowerCityWith lower b))
    (stringLt (lowerCityWith lower b) (lowerCityWith lower a))

/-- The relation by which `sort` places `a` before `b` on the city key. -/
def cityBeforeWith (lower : String → String) (o : SortOrder) (a b : Flat) : Prop :=
  cityCompareWith lower o a b ≤ 0

instance instDecidableCityBeforeWith (lower : String → String) (o : SortOrder) :
    DecidableRel (cityBeforeWith lower o) :=
  fun a b => by unfold cityBeforeWith; infer_instance

/-! ## Sample listings (specification, section 8) -/

/-- A stored record without a city. -/
def noCity : Flat :=
  { city := none, street := some "Hill Rd", number := some "3", area := some "50",
    ac := none, yearBuilt := some "2010", price := some "1200",
    availableDate := none, isFavorite := none }


/-- The Kelowna listing of the examples. -/
def kelowna : Flat :=
  { city := some "Kelowna", street := some "Main St", number := some "12", area := some "60",
    ac := some true, yearBuilt := some "1999", price := some "1500",
    availableDate := some "2025-01-01", isFavorite := none }

/-- The Vernon listing of the examples. -/
def vernon : Flat :=
  { city := some "Vernon", street := some "Lake Rd", number := some "7", area := some "45",
    ac := some false, yearBuilt := some "2005", price := some "900",
    availableDate := some "2025-02-01", isFavorite := none }

/-- The Kelowna listing with its city in capitals. -/
def kelownaUpper : Flat :=
  { kelowna with city := some "KELOWNA" }

/-- The Vernon listing with the price of the Kelowna listing, written differently. -/
def vernonDear : Flat :=
  { vernon with price := some "1500.0" }

/-- The Vernon listing with a price that is not a number. -/
def priceless : Flat :=
  { vernon with price := some "abc" }

/-- The Kelowna listing with its city in small letters. -/
def kelownaLower : Flat :=
  { kelowna with city := some "kelowna" }

/-- The Kelowna listing flagged as a favourite. -/
def kelownaFlagged : Flat :=
  setFavorite true kelowna

/-! # Theorems -/

/-! ## The serialised identity key is injective -/

theorem hex_roundtrip : ∀ n, n < 32 → hexVal (hexDigit (n / 16)) * 16 + hexVal (hexDigit (n % 16)) = n := by
  decide

theorem unquoteChar_quoteChar (c : Char) (r : List Char) :
    unquoteChar (quoteChar c ++ r) = some (c, r) := by
  unfold quoteChar
  split_ifs with h1 h2 h3 h4 h5 h6 h7 h8
  · subst h1; rfl
  · subst h2; rfl
  · subst h3; rfl
  · subst h4; rfl
  · subst h5; rfl
  · subst h6; rfl
  · subst h7; rfl
  · have := hex_roundtrip c.toNat h8
    simp [unquoteChar, this]
  · simp [unquoteChar, h6, h7]

theorem quoteChars_inj : ∀ (s t r1 r2 : List Char),
    quoteChars s ++ '"' :: r1 = quoteChars t ++ '"' :: r2 → s = t ∧ r1 = r2 := by
  intro s
  induction s with
  | nil =>
    intro t r1 r2 h
    cases t with
    | nil => simpa [quoteChars] using h
    | cons d t =>
      have h2 := congrArg unquoteChar h
      simp only [quoteChars, List.nil_append, List.append_assoc, unquoteChar_quoteChar] at h2
      simp [unquoteChar] at h2
  | cons c s ih =>
    intro t r1 r2 h
    cases t with
    | nil =>
      have h2 := congrArg unquoteChar h
      simp only [quoteChars, List.nil_append, List.append_assoc, unquoteChar_quoteChar] at h2
      simp [unquoteChar] at h2
    | cons d t =>
      have h2 := congrArg unquoteChar h
      simp only [quoteChars, List.append_assoc, unquoteChar_quoteChar, Option.some.injEq,
        Prod.mk.injEq] at h2
      obtain ⟨hc, hr⟩ := h2
      obtain ⟨hs, hr2⟩ := ih t r1 r2 hr
      exact ⟨by rw [hc, hs], hr2⟩

theorem quoteJSONString_inj (s t : String) (r1 r2 : List Char)
    (h : quoteJSONString s ++ r1 = quoteJSONString t ++ r2) : s = t ∧ r1 = r2 := by
  simp only [quoteJSONString, List.cons_append, List.append_assoc, List.singleton_append,
    List.cons.injEq, true_and] at h
  obtain ⟨hs, hr⟩ := quoteChars_inj _ _ _ _ h
  exact ⟨String.ext hs, hr⟩

theorem jsonMember_inj (m n : String × String) (r1 r2 : List Char)
    (h : jsonMember m ++ r1 = jsonMember n ++ r2) : m = n ∧ r1 = r2 := by
  simp only [jsonMember, List.append_assoc, List.cons_append] at h
  obtain ⟨hk, hr⟩ := quoteJSONString_inj _ _ _ _ h
  simp only [List.cons.injEq, true_and] at hr
  obtain ⟨hv, hr2⟩ := quoteJSONString_inj _ _ _ _ hr
  exact ⟨Prod.ext hk hv, hr2⟩

theorem jsonTail_inj : ∀ (ms ns : List (String × String)) (r1 r2 : List Char),
    jsonTail ms ++ r1 = jsonTail ns ++ r2 → ms = ns ∧ r1 = r2 := by
  intro ms
  induction ms with
  | nil =>
    intro ns r1 r2 h
    cases ns with
    | nil => simpa [jsonTail] using h
    | cons n ns => simp [jsonTail] at h
  | cons m ms ih =>
    intro ns r1 r2 h
    cases ns with
    | nil => simp [jsonTail] at h
    | cons n ns =>
      simp only [jsonTail, List.cons_append, List.append_assoc, List.cons.injEq, true_and] at h
      obtain ⟨hm, hr⟩ := jsonMember_inj _ _ _ _ h
      obtain ⟨hms, hr2⟩ := ih ns r1 r2 hr
      exact ⟨by rw [hm, hms], hr2⟩

theorem jsonObject_inj (ms ns : List (String × String))
    (h : jsonObject ms = jsonObject ns) : ms = ns := by
  cases ms with
  | nil =>
    cases ns with
    | nil => rfl
    | cons n ns =>
      simp [jsonObject, jsonMember, quoteJSONString] at h
  | cons m ms =>
    cases ns with
    | nil => simp [jsonObject, jsonMember, quoteJSONString] at h
    | cons n ns =>
      simp only [jsonObject, List.cons.injEq, true_and] at h
      have h2 : jsonMember m ++ (jsonTail ms ++ []) = jsonMember n ++ (jsonTail ns ++ []) := by
        simpa using h
      obtain ⟨hm, hr⟩ := jsonMember_inj _ _ _ _ h2
      obtain ⟨hms, _⟩ := jsonTail_inj _ _ _ _ hr
      rw [hm, hms]

theorem lookup_city (c : CoreProps) :
    (jsonMembers c.properties).lookup "city" = c.city := by
  rcases c with ⟨_ | a, _ | b, _ | d, _ | e, _ | f⟩ <;>
    simp [CoreProps.properties, jsonMembers, List.lookup]

theorem lookup_street (c : CoreProps) :
    (jsonMembers c.properties).lookup "street" = c.street := by
  rcases c with ⟨_ | a, _ | b, _ | d, _ | e, _ | f⟩ <;>
    simp [CoreProps.properties, jsonMembers, List.lookup]

theorem lookup_number (c : CoreProps) :
    (jsonMembers c.properties).lookup "number" = c.number := by
  rcases c with ⟨_ | a, _ | b, _ | d, _ | e, _ | f⟩ <;>
    simp [CoreProps.properties, jsonMembers, List.lookup]

theorem lookup_area (c : CoreProps) :
    (jsonMembers c.properties).lookup "area" = c.area := by
  rcases c with ⟨_ | a, _ | b, _ | d, _ | e, _ | f⟩ <;>
    simp [CoreProps.properties, jsonMembers, List.lookup]

theorem lookup_yearBuilt (c : CoreProps) :
    (jsonMembers c.properties).lookup "yearBuilt" = c.yearBuilt := by
  rcases c with ⟨_ | a, _ | b, _ | d, _ | e, _ | f⟩ <;>
    simp [CoreProps.properties, jsonMembers, List.lookup]

/-- Two core-property objects with the same serialisation are equal. -/
theorem jsonStringifyCore_inj (c d : CoreProps)
    (h : jsonStringifyCore c = jsonStringifyCore d) : c = d := by
  have hm : jsonMembers c.properties = jsonMembers d.properties := by
    apply jsonObject_inj
    exact congrArg String.data h
  have h1 := lookup_city c
  have h2 := lookup_street c
  have h3 := lookup_number c
  have h4 := lookup_area c
  have h5 := lookup_yearBuilt c
  rw [hm] at h1 h2 h3 h4 h5
  rw [lookup_city] at h1
  rw [lookup_street] at h2
  rw [lookup_number] at h3
  rw [lookup_area] at h4
  rw [lookup_yearBuilt] at h5
  cases c
  cases d
  simp_all

/-- The string comparison of the handlers decides equality of the core
properties. -/
theorem stringify_eq_iff (c d : CoreProps) :
    jsonStringifyCore c = jsonStringifyCore d ↔ c = d :=
  ⟨jsonStringifyCore_inj c d, fun h => by rw [h]⟩

/-- C3 (identity equality): the serialised identity keys of two listings are
equal exactly when city, street, number, area and yearBuilt are pairwise equal
as stored (an absent field equals only an absent field, text is compared
character by character); no other field takes part. -/
theorem identity_key_equality (a b : Flat) :
    jsonStringifyCore (getCoreProperties a) = jsonStringifyCore (getCoreProperties b) ↔
      (a.city = b.city ∧ a.street = b.street ∧ a.number = b.number ∧
        a.area = b.area ∧ a.yearBuilt = b.yearBuilt) := by
  rw [stringify_eq_iff]
  simp [getCoreProperties]

/-! ## Filter engine -/

theorem mem_condFilter {α : Type} (g : Prop) [Decidable g] (p : α → Bool) (xs : List α) (x : α) :
    x ∈ (if g then xs.filter p else xs) ↔ x ∈ xs ∧ (g → p x = true) := by
  by_cases hg : g <;> simp [hg, List.mem_filter]

theorem mem_filterFlats (inp : FilterInputs) (flats : List Flat) (L : Flat) :
    L ∈ filterFlats inp flats ↔
      L ∈ flats ∧
      (toLowerCase (trim inp.filterCity) ≠ "" → cityCallback (toLowerCase (trim inp.filterCity)) L = true) ∧
      ((parseFloat inp.filterMinPrice).isNaN = false → minPriceCallback (parseFloat inp.filterMinPrice) L = true) ∧
      ((parseFloat inp.filterMaxPrice).isNaN = false → maxPriceCallback (parseFloat inp.filterMaxPrice) L = true) ∧
      ((parseFloat inp.filterMinArea).isNaN = false → minAreaCallback (parseFloat inp.filterMinArea) L = true) ∧
      ((parseFloat inp.filterMaxArea).isNaN = false → maxAreaCallback (parseFloat inp.filterMaxArea) L = true) := by
  unfold filterFlats
  simp only [mem_condFilter, Bool.not_eq_true']
  tauto

theorem condFilter_sublist {α : Type} (g : Prop) [Decidable g] (p : α → Bool) (xs : List α) :
    List.Sublist (if g then xs.filter p else xs) xs := by
  by_cases hg : g <;> simp [hg]

theorem filterFlats_sublist (inp : FilterInputs) (flats : List Flat) :
    List.Sublist (filterFlats inp flats) flats := by
  unfold filterFlats
  simp only []
  refine (condFilter_sublist _ _ _).trans ?_
  refine (condFilter_sublist _ _ _).trans ?_
  refine (condFilter_sublist _ _ _).trans ?_
  refine (condFilter_sublist _ _ _).trans ?_
  exact condFilter_sublist _ _ _

theorem cityCallback_eq (c : String) (hc : c ≠ "") (flat : Flat) :
    cityCallback c flat = satisfiesCity c flat := by
  unfold cityCallback satisfiesCity
  cases hcity : flat.city with
  | none => rfl
  | some s =>
    by_cases hs : s = ""
    · subst hs
      have hd : c.data ≠ [] := fun h => hc (String.ext h)
      cases hdata : c.data with
      | nil => exact absurd hdata hd
      | cons x xs => simp [includes, toLowerCase, includesChars, hdata]
    · simp [hs]

theorem satisfiesAll_iff (inp : FilterInputs) (L : Flat) :
    satisfiesAll inp L = true ↔
      (toLowerCase (trim inp.filterCity) ≠ "" →
        cityCallback (toLowerCase (trim inp.filterCity)) L = true) ∧
      ((parseFloat inp.filterMinPrice).isNaN = false →
        minPriceCallback (parseFloat inp.filterMinPrice) L = true) ∧
      ((parseFloat inp.filterMaxPrice).isNaN = false →
        maxPriceCallback (parseFloat inp.filterMaxPrice) L = true) ∧
      ((parseFloat inp.filterMinArea).isNaN = false →
        minAreaCallback (parseFloat inp.filterMinArea) L = true) ∧
      ((parseFloat inp.filterMaxArea).isNaN = false →
        maxAreaCallback (parseFloat inp.filterMaxArea) L = true) := by
  have hcity : whenSupplied (cityCriterion inp) (fun c => satisfiesCity c L) = true ↔
      (toLowerCase (trim inp.filterCity) ≠ "" →
        cityCallback (toLowerCase (trim inp.filterCity)) L = true) := by
    unfold cityCriterion whenSupplied
    by_cases h : toLowerCase (trim inp.filterCity) = ""
    · simp [h]
    · simp [h, cityCallback_eq _ h]
  have hmin : ∀ (text : String) (v : Option String),
      whenSupplied (boundCriterion text) (fun b => satisfiesMin b v) = true ↔
        ((parseFloat text).isNaN = false →
          (v.isSome && (parseFloatValue v).ge (parseFloat text)) = true) := by
    intro text v
    unfold boundCriterion whenSupplied
    cases h : (parseFloat text).isNaN <;> cases v <;> simp [h, satisfiesMin, parseFloatValue]
  have hmax : ∀ (text : String) (v : Option String),
      whenSupplied (boundCriterion text) (fun b => satisfiesMax b v) = true ↔
        ((parseFloat text).isNaN = false →
          (v.isSome && (parseFloatValue v).le (parseFloat text)) = true) := by
    intro text v
    unfold boundCriterion whenSupplied
    cases h : (parseFloat text).isNaN <;> cases v <;> simp [h, satisfiesMax, parseFloatValue]
  unfold satisfiesAll
  simp only [Bool.and_eq_true, hcity, hmin, hmax, minPriceCallback, maxPriceCallback,
    minAreaCallback, maxAreaCallback]
  tauto

/-- C1 (filter conjunction): a listing is in the filtered result exactly when it
is in the input and satisfies every supplied criterion on its own; with the
Kelowna (price 1500) and Vernon (price 900) listings and a minimum price of 1000
only the Kelowna listing is left. -/
theorem filter_conjunction :
    (∀ (inp : FilterInputs) (flats : List Flat) (L : Flat),
      L ∈ filterFlats inp flats ↔ L ∈ flats ∧ satisfiesAll inp L = true) ∧
    filterFlats ⟨"", "1000", "", "", ""⟩ [kelowna, vernon] = [kelowna] := by
  refine ⟨?_, by decide⟩
  intro inp flats L
  rw [mem_filterFlats, satisfiesAll_iff]

/-- C10 (filter stability): the filtered result is a subsequence of the input,
so it holds only input listings, none more often than the input does, in their
original relative order. -/
theorem filter_stability (inp : FilterInputs) (flats : List Flat) :
    List.Sublist (filterFlats inp flats) flats ∧
    (∀ L, L ∈ filterFlats inp flats → L ∈ flats) ∧
    (∀ L, (filterFlats inp flats).count L ≤ flats.count L) :=
  ⟨filterFlats_sublist inp flats, fun _ h => (filterFlats_sublist inp flats).subset h,
    fun _ => (filterFlats_sublist inp flats).count_le _⟩

/-! ## Sort engine -/

theorem orZero_isNaN (x : JSNum) : x.orZero.isNaN = false := by
  cases x <;> rfl

theorem numericKey_isNaN (k : SortKey) (f : Flat) : (numericKey k f).isNaN = false :=
  orZero_isNaN _

theorem jsnum_le_total (x y : JSNum) (hx : x.isNaN = false) (hy : y.isNaN = false) :
    x.le y = true ∨ y.le x = true := by
  cases x <;> cases y <;> simp_all [JSNum.le, JSNum.lt, JSNum.isNaN]
  exact le_total _ _

theorem jsnum_le_trans (x y z : JSNum) (h1 : x.le y = true) (h2 : y.le z = true) :
    x.le z = true := by
  cases x <;> cases y <;> cases z <;> simp_all [JSNum.le, JSNum.lt, JSNum.isNaN]
  exact le_trans h1 h2

theorem jsnum_ge_iff_le (x y : JSNum) : x.ge y = y.le x := by
  simp [JSNum.ge, JSNum.le, Bool.and_comm]

theorem sortInsert_ok {α ε : Type} (c : α → α → Int) (x : α) (ys : List α) :
    sortInsert (fun a b => (Except.ok (c a b) : Except ε Int)) x ys =
      .ok (List.orderedInsert (fun a b => c a b ≤ 0) x ys) := by
  induction ys with
  | nil => rfl
  | cons y ys ih =>
    simp only [sortInsert, List.orderedInsert]
    by_cases h : c x y ≤ 0
    · simp [h]
    · simp [h, ih]

theorem arraySort_ok {α ε : Type} (c : α → α → Int) (xs : List α) :
    arraySort (fun a b => (Except.ok (c a b) : Except ε Int)) xs =
      .ok (List.insertionSort (fun a b => c a b ≤ 0) xs) := by
  induction xs with
  | nil => rfl
  | cons x xs ih =>
    simp only [arraySort, ih, List.insertionSort]
    exact sortInsert_ok c x _

/-- The comparator on a numeric key, as a total function. -/
theorem sortComparator_numeric (k : SortKey) (hk : k = .price ∨ k = .area) (o : SortOrder) :
    sortComparator k o = fun a b =>
      .ok (orderResult o ((numericKey k a).lt (numericKey k b)) ((numericKey k a).gt (numericKey k b))) := by
  funext a b
  simp [sortComparator, hk]

theorem orderResult_asc_le (x y : JSNum) (hx : x.isNaN = false) (hy : y.isNaN = false) :
    orderResult .asc (x.lt y) (x.gt y) ≤ 0 ↔ x.le y = true := by
  cases x <;> cases y <;> simp_all [orderResult, JSNum.le, JSNum.lt, JSNum.gt, JSNum.isNaN]
  rename_i a b
  by_cases h1 : a < b
  · simp [h1, le_of_lt h1]
  · by_cases h2 : b < a
    · simp [h1, h2]
    · simp [h1, h2]; exact not_lt.mp h2

theorem orderResult_desc_le (x y : JSNum) (hx : x.isNaN = false) (hy : y.isNaN = false) :
    orderResult .desc (x.lt y) (x.gt y) ≤ 0 ↔ x.ge y = true := by
  cases x <;> cases y <;> simp_all [orderResult, JSNum.ge, JSNum.lt, JSNum.gt, JSNum.isNaN]
  rename_i a b
  by_cases h1 : a < b
  · simp [h1]
  · by_cases h2 : b < a
    · simp [h1, h2, le_of_lt h2]
    · simp [h1, h2]; exact not_lt.mp h1


theorem numericBefore_iff (k : SortKey) (o : SortOrder) (a b : Flat) :
    numericBefore k o a b ↔
      (match o with
        | .asc => (numericKey k a).le (numericKey k b) = true
        | .desc => (numericKey k a).ge (numericKey k b) = true) := by
  cases o
  · exact orderResult_asc_le _ _ (numericKey_isNaN k a) (numericKey_isNaN k b)
  · exact orderResult_desc_le _ _ (numericKey_isNaN k a) (numericKey_isNaN k b)

theorem numericBefore_total (k : SortKey) (o : SortOrder) (a b : Flat) :
    numericBefore k o a b ∨ numericBefore k o b a := by
  rw [numericBefore_iff, numericBefore_iff]
  cases o
  · exact jsnum_le_total _ _ (numericKey_isNaN k a) (numericKey_isNaN k b)
  · simp only [jsnum_ge_iff_le]
    exact (jsnum_le_total _ _ (numericKey_isNaN k a) (numericKey_isNaN k b)).symm

theorem numericBefore_trans (k : SortKey) (o : SortOrder) (a b c : Flat)
    (h1 : numericBefore k o a b) (h2 : numericBefore k o b c) : numericBefore k o a c := by
  rw [numericBefore_iff] at *
  cases o
  · exact jsnum_le_trans _ _ _ h1 h2
  · simp only [jsnum_ge_iff_le] at *
    exact jsnum_le_trans _ _ _ h2 h1

theorem sortFlats_numeric (k : SortKey) (hk : k = .price ∨ k = .area) (o : SortOrder)
    (xs : List Flat) :
    sortFlats (some k) o xs = .ok (List.insertionSort (numericBefore k o) xs) := by
  simp only [sortFlats, sortComparator_numeric k hk o]
  exact arraySort_ok _ xs

theorem insertionSort_numeric_sorted (k : SortKey) (o : SortOrder) (xs : List Flat) :
    List.Sorted (numericBefore k o) (List.insertionSort (numericBefore k o) xs) := by
  haveI : IsTotal Flat (numericBefore k o) := ⟨numericBefore_total k o⟩
  haveI : IsTrans Flat (numericBefore k o) := ⟨numericBefore_trans k o⟩
  exact List.sorted_insertionSort _ xs

/-- C2 (sort order on numeric keys): sorting by price or area returns a sequence
in which every adjacent pair is in order of `parseFloat(x[key]) || 0`, `<=` when
ascending and `>=` when descending. -/
theorem sort_numeric_order (k : SortKey) (hk : k = .price ∨ k = .area) (o : SortOrder)
    (xs : List Flat) :
    ∃ ys, sortFlats (some k) o xs = .ok ys ∧
      (o = .asc → List.Chain' (fun a b => (numericKey k a).le (numericKey k b) = true) ys) ∧
      (o = .desc → List.Chain' (fun a b => (numericKey k a).ge (numericKey k b) = true) ys) := by
  refine ⟨_, sortFlats_numeric k hk o xs, ?_, ?_⟩
  · intro ho
    subst ho
    exact (List.Pairwise.chain' (insertionSort_numeric_sorted k .asc xs)).imp
      (fun a b h => (numericBefore_iff k .asc a b).mp h)
  · intro ho
    subst ho
    exact (List.Pairwise.chain' (insertionSort_numeric_sorted k .desc xs)).imp
      (fun a b h => (numericBefore_iff k .desc a b).mp h)

/-- Sorting the Kelowna (1500) and Vernon (900) listings by price, descending,
gives Kelowna then Vernon, an instance of `sort_numeric_order`. -/
theorem sort_numeric_order_witness :
    (SortKey.price = .price ∨ SortKey.price = .area) ∧
    sortFlats (some .price) .desc [kelowna, vernon] = .ok [kelowna, vernon] ∧
    ∃ ys, sortFlats (some .price) .desc [kelowna, vernon] = .ok ys ∧
      (SortOrder.desc = .asc →
        List.Chain' (fun a b => (numericKey .price a).le (numericKey .price b) = true) ys) ∧
      (SortOrder.desc = .desc →
        List.Chain' (fun a b => (numericKey .price a).ge (numericKey .price b) = true) ys) :=
  ⟨Or.inl rfl, by decide, sort_numeric_order .price (Or.inl rfl) .desc [kelowna, vernon]⟩

/-! ## Favorite Synchronizer -/

theorem keyTest_eq (L : Flat) :
    (fun (f : Flat) => decide (jsonStringifyCore (getCoreProperties f) =
      jsonStringifyCore (getCoreProperties L))) = sameFlat L := by
  funext f
  simp [sameFlat, stringify_eq_iff]

theorem keyTest_ne_eq (L : Flat) :
    (fun (f : Flat) => decide (jsonStringifyCore (getCoreProperties f) ≠
      jsonStringifyCore (getCoreProperties L))) = fun f => !sameFlat L f := by
  funext f
  simp [sameFlat, stringify_eq_iff]

theorem getCoreProperties_setFavorite (v : Bool) (f : Flat) :
    getCoreProperties (setFavorite v f) = getCoreProperties f := rfl

theorem sameFlat_setFavorite (L : Flat) (v : Bool) (f : Flat) :
    sameFlat L (setFavorite v f) = sameFlat L f := rfl

theorem updateFirst_length (p : Flat → Bool) (g : Flat → Flat) (l : List Flat) :
    (updateFirst p g l).length = l.length := by
  induction l with
  | nil => rfl
  | cons f fs ih =>
    simp only [updateFirst]
    split <;> simp [ih]

theorem updateFirst_split (p : Flat → Bool) (g : Flat → Flat) (pre : List Flat) (t : Flat)
    (post : List Flat) (hpre : ∀ x ∈ pre, p x = false) (ht : p t = true) :
    updateFirst p g (pre ++ t :: post) = pre ++ g t :: post := by
  induction pre with
  | nil => simp [updateFirst, ht]
  | cons x xs ih =>
    have hx : p x = false := hpre x (List.mem_cons_self _ _)
    have h2 := ih (fun y hy => hpre y (List.mem_cons_of_mem _ hy))
    simp [updateFirst, hx, h2]

theorem updateFirst_none (p : Flat → Bool) (g : Flat → Flat) (l : List Flat)
    (h : ∀ x ∈ l, p x = false) : updateFirst p g l = l := by
  induction l with
  | nil => rfl
  | cons x xs ih =>
    have hx : p x = false := h x (List.mem_cons_self _ _)
    simp only [updateFirst, hx]
    rw [ih (fun y hy => h y (List.mem_cons_of_mem _ hy))]
    simp

theorem find?_split (p : Flat → Bool) (pre : List Flat) (t : Flat)
    (post : List Flat) (hpre : ∀ x ∈ pre, p x = false) (ht : p t = true) :
    (pre ++ t :: post).find? p = some t := by
  induction pre with
  | nil => simp [ht]
  | cons x xs ih =>
    have hx : p x = false := hpre x (List.mem_cons_self _ _)
    simp only [List.cons_append, List.find?, hx]
    exact ih (fun y hy => hpre y (List.mem_cons_of_mem _ hy))

/-- Every list splits at its first element satisfying `p`, or has none. -/
theorem first_split (p : Flat → Bool) (l : List Flat) :
    (∀ x ∈ l, p x = false) ∨
    ∃ pre t post, l = pre ++ t :: post ∧ (∀ x ∈ pre, p x = false) ∧ p t = true := by
  induction l with
  | nil => left; simp
  | cons x xs ih =>
    by_cases hx : p x = true
    · right; exact ⟨[], x, xs, rfl, by simp, hx⟩
    · have hx2 : p x = false := by simpa using hx
      rcases ih with h | ⟨pre, t, post, h1, h2, h3⟩
      · left
        intro y hy
        rcases List.mem_cons.mp hy with rfl | hy
        · exact hx2
        · exact h y hy
      · right
        refine ⟨x :: pre, t, post, by rw [h1]; rfl, ?_, h3⟩
        intro y hy
        rcases List.mem_cons.mp hy with rfl | hy
        · exact hx2
        · exact h2 y hy

theorem updateFirst_getElem? (p : Flat → Bool) (g : Flat → Flat) (l : List Flat) (i : Nat)
    (r : Flat) (h : l[i]? = some r) (hr : p r = false) :
    (updateFirst p g l)[i]? = some r := by
  induction l generalizing i with
  | nil => simp at h
  | cons x xs ih =>
    cases i with
    | zero =>
      simp only [List.getElem?_cons_zero, Option.some.injEq] at h
      subst h
      simp [updateFirst, hr]
    | succ j =>
      simp only [List.getElem?_cons_succ] at h
      simp only [updateFirst]
      split
      · simpa using h
      · simpa using ih j h

theorem updateFirst_map {β : Type} (p : Flat → Bool) (g : Flat → Flat) (φ : Flat → β)
    (hφ : ∀ x, p x = true → φ (g x) = φ x) (l : List Flat) :
    (updateFirst p g l).map φ = l.map φ := by
  induction l with
  | nil => rfl
  | cons x xs ih =>
    simp only [updateFirst]
    split
    · rename_i hx; simp [hφ x hx]
    · simp [ih]

/-- The toggle handler when the favourites slot parses to `favs`. -/
theorem favoriteChange_ok (L : Flat) (v : Bool) (master : List Flat) (rf fs : Stored)
    (favs : List Flat) (hfs : parseOrEmpty fs = .ok favs) :
    favoriteChange L v ⟨master, ⟨rf, fs⟩⟩ =
      ⟨⟨updateFirst (sameFlat L) (setFavorite v) master,
        ⟨.array (updateFirst (sameFlat L) (setFavorite v) master),
         .array (if v then
            (if favs.any (sameFlat L) then favs
             else favs ++ [((master.find? (sameFlat L)).map (setFavorite v)).getD L])
           else favs.filter (fun f => !sameFlat L f))⟩⟩, none⟩ := by
  unfold favoriteChange
  simp only [keyTest_eq, keyTest_ne_eq, hfs]
  cases v
  · simp
  · by_cases h : favs.any (sameFlat L) = true
    · simp only [h]
      simp
    · simp only [h]
      simp

/-- The Remove handler when both slots parse. -/
theorem removeClick_ok (L : Flat) (view : List Flat) (rf fs : Stored) (favs all : List Flat)
    (hfs : parseOrEmpty fs = .ok favs) (hrf : parseOrEmpty rf = .ok all) :
    removeClick L ⟨view, ⟨rf, fs⟩⟩ =
      ⟨⟨view.filter (fun f => !sameFlat L f),
        ⟨if all.any (sameFlat L) then .array (updateFirst (sameFlat L) (setFavorite false) all)
          else rf,
         .array (favs.filter (fun f => !sameFlat L f))⟩⟩, none⟩ := by
  unfold removeClick
  simp only [keyTest_eq, keyTest_ne_eq, hfs, hrf]
  by_cases h : all.any (sameFlat L) = true
  · simp only [h]
    simp
  · simp only [h]
    simp

theorem sameFlat_iff (L f : Flat) :
    sameFlat L f = true ↔ getCoreProperties f = getCoreProperties L := by
  simp [sameFlat]

theorem sameFlat_false_iff (L f : Flat) :
    sameFlat L f = false ↔ getCoreProperties f ≠ getCoreProperties L := by
  simp [sameFlat]

theorem sameFlat_congr (L L2 : Flat) (h : getCoreProperties L2 = getCoreProperties L) :
    sameFlat L2 = sameFlat L := by
  funext f
  simp [sameFlat, h]

theorem favoriteCopy_eq (master : List Flat) (L : Flat) :
    ((master.find? (sameFlat L)).map (setFavorite true)).getD L = favoriteCopy master L := by
  unfold favoriteCopy
  cases master.find? (sameFlat L) <;> rfl

theorem favoriteCopy_props (master : List Flat) (L : Flat) :
    getCoreProperties (favoriteCopy master L) = getCoreProperties L := by
  unfold favoriteCopy
  cases h : master.find? (sameFlat L) with
  | none => rfl
  | some t =>
    have := List.find?_some h
    exact (sameFlat_iff L t).mp this

theorem any_sameFlat_false (L : Flat) (favs : List Flat)
    (h : ∀ r ∈ favs, getCoreProperties r ≠ getCoreProperties L) :
    favs.any (sameFlat L) = false := by
  rw [List.any_eq_false]
  intro r hr
  simpa [sameFlat] using h r hr

theorem any_sameFlat_true (L : Flat) (favs : List Flat)
    (h : ∃ r ∈ favs, getCoreProperties r = getCoreProperties L) :
    favs.any (sameFlat L) = true := by
  rw [List.any_eq_true]
  obtain ⟨r, hr, hk⟩ := h
  exact ⟨r, hr, (sameFlat_iff L r).mpr hk⟩

/-- C8 (toggle effect on All-Listings): after a toggle to `v` the in-memory list
is the one persisted, has the same length, differs from the old list only in the
record located for the identity key of L (the first with that key), whose
isFavorite is now `v` with all other fields kept, and every record with another
identity key is in its old position, unchanged. -/
theorem toggle_all_listings (master : List Flat) (storage : Storage) (L : Flat) (v : Bool) :
    (favoriteChange L v ⟨master, storage⟩).state.storage.renteaseFlats =
        .array (favoriteChange L v ⟨master, storage⟩).state.allFlatsArray ∧
    (favoriteChange L v ⟨master, storage⟩).state.allFlatsArray.length = master.length ∧
    (∀ pre t post, master = pre ++ t :: post →
        (∀ x ∈ pre, getCoreProperties x ≠ getCoreProperties L) →
        getCoreProperties t = getCoreProperties L →
        (favoriteChange L v ⟨master, storage⟩).state.allFlatsArray =
          pre ++ { t with isFavorite := some v } :: post) ∧
    ((∀ x ∈ master, getCoreProperties x ≠ getCoreProperties L) →
        (favoriteChange L v ⟨master, storage⟩).state.allFlatsArray = master) ∧
    (∀ (i : Nat) (r : Flat), master[i]? = some r → getCoreProperties r ≠ getCoreProperties L →
        (favoriteChange L v ⟨master, storage⟩).state.allFlatsArray[i]? = some r) := by
  have hstate : (favoriteChange L v ⟨master, storage⟩).state.allFlatsArray =
        updateFirst (sameFlat L) (setFavorite v) master ∧
      (favoriteChange L v ⟨master, storage⟩).state.storage.renteaseFlats =
        .array (updateFirst (sameFlat L) (setFavorite v) master) := by
    unfold favoriteChange
    simp only [keyTest_eq]
    split <;> exact ⟨rfl, rfl⟩
  obtain ⟨h1, h2⟩ := hstate
  rw [h1, h2]
  refine ⟨rfl, updateFirst_length _ _ _, ?_, ?_, ?_⟩
  · intro pre t post hm hpre ht
    rw [hm]
    exact updateFirst_split _ _ pre t post
      (fun x hx => (sameFlat_false_iff L x).mpr (hpre x hx)) ((sameFlat_iff L t).mpr ht)
  · intro hnone
    exact updateFirst_none _ _ _ (fun x hx => (sameFlat_false_iff L x).mpr (hnone x hx))
  · intro i r hi hr
    exact updateFirst_getElem? _ _ _ i r hi ((sameFlat_false_iff L r).mpr hr)

/-- C7 (toggle to false): the handler completes and the persisted Favorites are
the old ones without the records whose identity key equals that of L: none of
those is left, every record with another key is kept, and the result is a
subsequence of the old list. -/
theorem toggle_false_favorites (master : List Flat) (rf : Stored) (favs : List Flat) (L : Flat) :
    (favoriteChange L false ⟨master, ⟨rf, .array favs⟩⟩).error = none ∧
    (favoriteChange L false ⟨master, ⟨rf, .array favs⟩⟩).state.storage.favoriteFlats =
      .array (favs.filter (fun r => decide (getCoreProperties r ≠ getCoreProperties L))) ∧
    (∀ r ∈ favs.filter (fun r => decide (getCoreProperties r ≠ getCoreProperties L)),
      getCoreProperties r ≠ getCoreProperties L) ∧
    (∀ r ∈ favs, getCoreProperties r ≠ getCoreProperties L →
      r ∈ favs.filter (fun r => decide (getCoreProperties r ≠ getCoreProperties L))) ∧
    List.Sublist (favs.filter (fun r => decide (getCoreProperties r ≠ getCoreProperties L))) favs := by
  rw [favoriteChange_ok L false master rf (.array favs) favs rfl]
  refine ⟨rfl, ?_, ?_, ?_, List.filter_sublist _⟩
  · simp [sameFlat]
  · intro r hr
    simpa using (List.mem_filter.mp hr).2
  · intro r hr hne
    exact List.mem_filter.mpr ⟨hr, by simpa using hne⟩

/-- C5 (dedup guard): when Favorites holds no record with the identity key of L,
toggling L to true appends exactly one record, a copy with that key (the located
master record, flagged, or L itself), and toggling to true again changes
nothing; when a record with the key is already there Favorites is unchanged.
The number of records with the key becomes one if it was zero and is otherwise
unchanged. -/
theorem dedup_guard (master : List Flat) (rf : Stored) (favs : List Flat) (L L2 : Flat) :
    getCoreProperties (favoriteCopy master L) = getCoreProperties L ∧
    (∀ pre post, master = pre ++ L :: post →
      (∀ x ∈ pre, getCoreProperties x ≠ getCoreProperties L) →
      favoriteCopy master L = { L with isFavorite := some true }) ∧
    ((∀ x ∈ master, getCoreProperties x ≠ getCoreProperties L) → favoriteCopy master L = L) ∧
    ((∀ r ∈ favs, getCoreProperties r ≠ getCoreProperties L) →
      (favoriteChange L true ⟨master, ⟨rf, .array favs⟩⟩).state.storage.favoriteFlats =
        .array (favs ++ [favoriteCopy master L]) ∧
      (getCoreProperties L2 = getCoreProperties L →
        (favoriteChange L2 true
            (favoriteChange L true ⟨master, ⟨rf, .array favs⟩⟩).state).state.storage.favoriteFlats =
          .array (favs ++ [favoriteCopy master L]))) ∧
    ((∃ r ∈ favs, getCoreProperties r = getCoreProperties L) →
      (favoriteChange L true ⟨master, ⟨rf, .array favs⟩⟩).state.storage.favoriteFlats =
        .array favs) ∧
    (favoriteChange L true ⟨master, ⟨rf, .array favs⟩⟩).state.storage.favoriteFlats.listings.countP
        (sameFlat L) = max 1 (favs.countP (sameFlat L)) := by
  rw [favoriteChange_ok L true master rf (.array favs) favs rfl]
  simp only [favoriteCopy_eq, if_true]
  refine ⟨favoriteCopy_props master L, ?_, ?_, ?_, ?_, ?_⟩
  · intro pre post hm hpre
    unfold favoriteCopy
    rw [hm, find?_split (sameFlat L) pre L post
      (fun x hx => (sameFlat_false_iff L x).mpr (hpre x hx)) ((sameFlat_iff L L).mpr rfl)]
    rfl
  · intro hnone
    unfold favoriteCopy
    have : master.find? (sameFlat L) = none := by
      rw [List.find?_eq_none]
      intro x hx
      simpa [sameFlat] using hnone x hx
    rw [this]
  · intro hfav
    have hany := any_sameFlat_false L favs hfav
    refine ⟨by simp [hany], ?_⟩
    intro hL2
    rw [favoriteChange_ok L2 true _ _ _ (favs ++ [favoriteCopy master L]) (by simp [hany, parseOrEmpty])]
    have : (favs ++ [favoriteCopy master L]).any (sameFlat L2) = true := by
      apply any_sameFlat_true
      exact ⟨favoriteCopy master L, by simp, by rw [favoriteCopy_props, hL2]⟩
    simp [this]
  · intro hex
    simp [any_sameFlat_true L favs hex]
  · by_cases hany : favs.any (sameFlat L) = true
    · simp only [hany, if_true, Stored.listings]
      have : 0 < favs.countP (sameFlat L) := by
        rw [List.countP_pos_iff]
        simpa using hany
      omega
    · have h0 : favs.countP (sameFlat L) = 0 := by
        rw [List.countP_eq_zero]
        intro r hr
        simp only [List.any_eq_true, not_exists, not_and] at hany
        exact hany r hr
      have hc : sameFlat L (favoriteCopy master L) = true :=
        (sameFlat_iff L _).mpr (favoriteCopy_props master L)
      simp [hany, Stored.listings, List.countP_append, h0, hc]

/-- C9 (remove from favourites): the Remove handler completes, leaves in the
persisted Favorites and in the in-memory view exactly the records with another
identity key, in order, and sets isFavorite to false on the All-Listings record
it locates for the key (the first one), every other record and the order being
unchanged; without such a record All-Listings is not touched. -/
theorem remove_from_favorites (L : Flat) (favs view all : List Flat) :
    (removeClick L ⟨view, ⟨.array all, .array favs⟩⟩).error = none ∧
    (removeClick L ⟨view, ⟨.array all, .array favs⟩⟩).state.storage.favoriteFlats =
      .array (favs.filter (fun r => decide (getCoreProperties r ≠ getCoreProperties L))) ∧
    (removeClick L ⟨view, ⟨.array all, .array favs⟩⟩).state.allFlatsArray =
      view.filter (fun r => decide (getCoreProperties r ≠ getCoreProperties L)) ∧
    (∀ pre t post, all = pre ++ t :: post →
      (∀ x ∈ pre, getCoreProperties x ≠ getCoreProperties L) →
      getCoreProperties t = getCoreProperties L →
      (removeClick L ⟨view, ⟨.array all, .array favs⟩⟩).state.storage.renteaseFlats =
        .array (pre ++ { t with isFavorite := some false } :: post)) ∧
    ((∀ x ∈ all, getCoreProperties x ≠ getCoreProperties L) →
      (removeClick L ⟨view, ⟨.array all, .array favs⟩⟩).state.storage.renteaseFlats =
        .array all) := by
  rw [removeClick_ok L view (.array all) (.array favs) favs all rfl rfl]
  refine ⟨rfl, ?_, ?_, ?_, ?_⟩
  · simp [sameFlat]
  · simp [sameFlat]
  · intro pre t post hm hpre ht
    have hany : all.any (sameFlat L) = true :=
      any_sameFlat_true L all ⟨t, by rw [hm]; simp, ht⟩
    simp only [hany, if_true]
    rw [hm, updateFirst_split _ _ pre t post
      (fun x hx => (sameFlat_false_iff L x).mpr (hpre x hx)) ((sameFlat_iff L t).mpr ht)]
    rfl
  · intro hnone
    simp [any_sameFlat_false L all hnone]

theorem favorite_of_not_flagged (t : Flat) (h : t.isFavorite ≠ some true) : t.favorite = false := by
  unfold Flat.favorite
  cases hf : t.isFavorite with
  | none => rfl
  | some b =>
    cases b
    · rfl
    · exact absurd hf h

theorem filter_not_sameFlat_eq (L : Flat) (favs : List Flat)
    (h : ∀ r ∈ favs, getCoreProperties r ≠ getCoreProperties L) :
    favs.filter (fun f => !sameFlat L f) = favs := by
  rw [List.filter_eq_self]
  intro r hr
  simpa [sameFlat] using h r hr

/-- The round trip when the record the toggle locates is not flagged: with no
record of the key of L in Favorites, toggling L to true and then to false
completes twice, leaves Favorites as it was, persists the in-memory list, and
leaves every All-Listings record with the flag it had and its other fields. -/
theorem round_trip_of_unflagged (master : List Flat) (rf : Stored) (favs : List Flat) (L L2 : Flat)
    (hfav : ∀ r ∈ favs, getCoreProperties r ≠ getCoreProperties L)
    (hflag : ∀ pre t post, master = pre ++ t :: post →
      (∀ x ∈ pre, getCoreProperties x ≠ getCoreProperties L) →
      getCoreProperties t = getCoreProperties L → t.isFavorite ≠ some true)
    (hL2 : getCoreProperties L2 = getCoreProperties L) :
    (favoriteChange L true ⟨master, ⟨rf, .array favs⟩⟩).error = none ∧
    (favoriteChange L2 false (favoriteChange L true ⟨master, ⟨rf, .array favs⟩⟩).state).error
      = none ∧
    (favoriteChange L2 false
      (favoriteChange L true ⟨master, ⟨rf, .array favs⟩⟩).state).state.storage.favoriteFlats
      = .array favs ∧
    (favoriteChange L2 false
      (favoriteChange L true ⟨master, ⟨rf, .array favs⟩⟩).state).state.storage.renteaseFlats
      = .array (favoriteChange L2 false
          (favoriteChange L true ⟨master, ⟨rf, .array favs⟩⟩).state).state.allFlatsArray ∧
    (favoriteChange L2 false
      (favoriteChange L true ⟨master, ⟨rf, .array favs⟩⟩).state).state.allFlatsArray.map
        Flat.favorite = master.map Flat.favorite ∧
    (favoriteChange L2 false
      (favoriteChange L true ⟨master, ⟨rf, .array favs⟩⟩).state).state.allFlatsArray.map
        (fun f => { f with isFavorite := none }) =
      master.map (fun f => { f with isFavorite := none }) := by
  have hany := any_sameFlat_false L favs hfav
  rw [favoriteChange_ok L true master rf (.array favs) favs rfl]
  simp only [if_true, hany, favoriteCopy_eq]
  rw [favoriteChange_ok L2 false _ _ _ (favs ++ [favoriteCopy master L]) (by simp [parseOrEmpty])]
  rw [sameFlat_congr L L2 hL2]
  have hc : sameFlat L (favoriteCopy master L) = true :=
    (sameFlat_iff L _).mpr (favoriteCopy_props master L)
  refine ⟨by trivial, by trivial, ?_, by trivial, ?_, ?_⟩
  · simp [List.filter_append, filter_not_sameFlat_eq L favs hfav, hc]
  · simp only []
    rcases first_split (sameFlat L) master with hnone | ⟨pre, t, post, hm, hpre, ht⟩
    · rw [updateFirst_none _ _ master hnone, updateFirst_none _ _ master hnone]
    · have hflagged := hflag pre t post hm
        (fun x hx => (sameFlat_false_iff L x).mp (hpre x hx)) ((sameFlat_iff L t).mp ht)
      rw [hm, updateFirst_split _ _ pre t post hpre ht,
        updateFirst_split _ _ pre (setFavorite true t) post hpre
          (by rw [sameFlat_setFavorite]; exact ht)]
      have hfalse := favorite_of_not_flagged t hflagged
      simp only [Flat.favorite] at hfalse
      simp [Flat.favorite, setFavorite, hfalse]
  · simp only []
    rw [updateFirst_map, updateFirst_map]
    · intro x _; rfl
    · intro x _; rfl

/-- In a state in which the flagged identity keys of All-Listings are the keys
of Favorites, no All-Listings record with a key that Favorites lacks is
flagged. -/
theorem unflagged_of_keysAgree (master favs : List Flat) (L : Flat)
    (hagree : KeysAgree master favs)
    (hfav : ∀ r ∈ favs, getCoreProperties r ≠ getCoreProperties L) :
    ∀ t ∈ master, getCoreProperties t = getCoreProperties L → t.isFavorite ≠ some true := by
  intro t ht hkey hflag
  obtain ⟨r, hr, hrk⟩ := (hagree (getCoreProperties L)).mp ⟨t, ht, hflag, hkey⟩
  exact hfav r hr hrk

/-- The flagged Kelowna listing is in both collections and the Vernon listing in
neither: the key sets agree. -/
theorem keysAgree_kelownaFlagged :
    KeysAgree [kelownaFlagged, vernon] [kelownaFlagged] := by
  intro k
  constructor
  · rintro ⟨r, hr, hf, hk⟩
    simp only [List.mem_cons, List.mem_singleton, List.not_mem_nil, or_false] at hr
    rcases hr with rfl | rfl
    · exact ⟨kelownaFlagged, by simp, hk⟩
    · exact absurd hf (by decide)
  · rintro ⟨r, hr, hk⟩
    simp only [List.mem_singleton] at hr
    subst hr
    exact ⟨kelownaFlagged, by simp, by decide, hk⟩

/-- C6 (favourite round trip): in a state of the two collections, one in which
the identity keys flagged isFavorite = true in All-Listings are the keys present
in Favorites (the cross-collection consistency the specification requires of the
stored data), and for a listing L whose key is not in Favorites, toggling L to
true and then to false completes twice, leaves Favorites exactly as it was,
persists the in-memory list, and leaves every All-Listings record with the flag
it had (read as `isFavorite || false`, as the checkbox reads it) and with all
its other fields.  The second toggle is fired on any record L2 with the key of
L, such as the updated record of the re-rendered row. -/
theorem favorite_round_trip (master : List Flat) (rf : Stored) (favs : List Flat) (L L2 : Flat)
    (hagree : KeysAgree master favs)
    (hfav : ∀ r ∈ favs, getCoreProperties r ≠ getCoreProperties L)
    (hL2 : getCoreProperties L2 = getCoreProperties L) :
    (favoriteChange L true ⟨master, ⟨rf, .array favs⟩⟩).error = none ∧
    (favoriteChange L2 false (favoriteChange L true ⟨master, ⟨rf, .array favs⟩⟩).state).error
      = none ∧
    (favoriteChange L2 false
      (favoriteChange L true ⟨master, ⟨rf, .array favs⟩⟩).state).state.storage.favoriteFlats
      = .array favs ∧
    (favoriteChange L2 false
      (favoriteChange L true ⟨master, ⟨rf, .array favs⟩⟩).state).state.storage.renteaseFlats
      = .array (favoriteChange L2 false
          (favoriteChange L true ⟨master, ⟨rf, .array favs⟩⟩).state).state.allFlatsArray ∧
    (favoriteChange L2 false
      (favoriteChange L true ⟨master, ⟨rf, .array favs⟩⟩).state).state.allFlatsArray.map
        Flat.favorite = master.map Flat.favorite ∧
    (favoriteChange L2 false
      (favoriteChange L true ⟨master, ⟨rf, .array favs⟩⟩).state).state.allFlatsArray.map
        (fun f => { f with isFavorite := none }) =
      master.map (fun f => { f with isFavorite := none }) :=
  round_trip_of_unflagged master rf favs L L2 hfav
    (fun pre t post hm _ ht =>
      unflagged_of_keysAgree master favs L hagree hfav t (by rw [hm]; simp) ht)
    hL2

/-- The round trip of the Vernon listing while the Kelowna listing is a
favourite: the first toggle adds the Vernon listing to Favorites and flags it,
the second, fired on the flagged record, takes both back. -/
theorem favorite_round_trip_witness :
    vernon ∈ [kelownaFlagged, vernon] ∧
    KeysAgree [kelownaFlagged, vernon] [kelownaFlagged] ∧
    (∀ r ∈ [kelownaFlagged], getCoreProperties r ≠ getCoreProperties vernon) ∧
    (favoriteChange vernon true
        ⟨[kelownaFlagged, vernon],
          ⟨.array [kelownaFlagged, vernon], .array [kelownaFlagged]⟩⟩).state.storage
      = ⟨.array [kelownaFlagged, setFavorite true vernon],
          .array [kelownaFlagged, setFavorite true vernon]⟩ ∧
    (favoriteChange (setFavorite true vernon) false
      (favoriteChange vernon true
        ⟨[kelownaFlagged, vernon],
          ⟨.array [kelownaFlagged, vernon], .array [kelownaFlagged]⟩⟩).state).state.storage
      = ⟨.array [kelownaFlagged, setFavorite false vernon], .array [kelownaFlagged]⟩ ∧
    (favoriteChange (setFavorite true vernon) false
      (favoriteChange vernon true
        ⟨[kelownaFlagged, vernon],
          ⟨.array [kelownaFlagged, vernon],
            .array [kelownaFlagged]⟩⟩).state).state.allFlatsArray.map
        Flat.favorite = [kelownaFlagged, vernon].map Flat.favorite :=
  ⟨by decide, keysAgree_kelownaFlagged, by decide, by decide, by decide,
   (favorite_round_trip [kelownaFlagged, vernon] (.array [kelownaFlagged, vernon])
      [kelownaFlagged] vernon (setFavorite true vernon)
      keysAgree_kelownaFlagged (by decide) (by decide)).2.2.2.2.1⟩

/-! ## Cross-collection invariant -/

theorem listings_array (flats : List Flat) : (Stored.array flats).listings = flats := rfl

theorem parseOrEmpty_collection (st : Stored) (h : st.isCollection = true) :
    parseOrEmpty st = .ok st.listings := by
  cases st <;> first | rfl | (simp [Stored.isCollection] at h)

theorem flagFirst_update (L : Flat) (v : Bool) (all : List Flat) (h : FlagFirst all) :
    FlagFirst (updateFirst (sameFlat L) (setFavorite v) all) := by
  rcases first_split (sameFlat L) all with hnone | ⟨pre, t, post, hm, hpre, ht⟩
  · rw [updateFirst_none _ _ all hnone]; exact h
  · rw [hm, updateFirst_split _ _ pre t post hpre ht]
    rw [hm] at h
    unfold FlagFirst at *
    rw [List.pairwise_append] at h ⊢
    obtain ⟨h1, h2, h3⟩ := h
    rw [List.pairwise_cons] at h2 ⊢
    refine ⟨h1, ⟨?_, h2.2⟩, ?_⟩
    · intro b hb hflag
      exact h2.1 b hb hflag
    · intro a ha b hb
      rcases List.mem_cons.mp hb with rfl | hb
      · intro _
        have := (sameFlat_false_iff L a).mp (hpre a ha)
        rw [getCoreProperties_setFavorite, (sameFlat_iff L t).mp ht]
        exact fun h => this h.symm
      · exact h3 a ha b (List.mem_cons_of_mem _ hb)

/-- The flagged identity keys after the located record is assigned `v`. -/
theorem flagged_update (L : Flat) (v : Bool) (all : List Flat) (h : FlagFirst all)
    (k : CoreProps) :
    (∃ r ∈ updateFirst (sameFlat L) (setFavorite v) all,
        r.isFavorite = some true ∧ getCoreProperties r = k) ↔
      (if k = getCoreProperties L then
        (v = true ∧ ∃ r ∈ all, getCoreProperties r = getCoreProperties L)
       else ∃ r ∈ all, r.isFavorite = some true ∧ getCoreProperties r = k) := by
  rcases first_split (sameFlat L) all with hnone | ⟨pre, t, post, hm, hpre, ht⟩
  · rw [updateFirst_none _ _ all hnone]
    by_cases hk : k = getCoreProperties L
    · subst hk
      simp only [if_true]
      constructor
      · rintro ⟨r, hr, _, hkey⟩
        exact absurd hkey ((sameFlat_false_iff L r).mp (hnone r hr))
      · rintro ⟨_, r, hr, hkey⟩
        exact absurd hkey ((sameFlat_false_iff L r).mp (hnone r hr))
    · simp only [hk, if_false]
  · subst hm
    have htk := (sameFlat_iff L t).mp ht
    have hprek : ∀ x ∈ pre, getCoreProperties x ≠ getCoreProperties L :=
      fun x hx => (sameFlat_false_iff L x).mp (hpre x hx)
    have hpost : ∀ b ∈ post, b.isFavorite = some true →
        getCoreProperties b ≠ getCoreProperties L := by
      unfold FlagFirst at h
      rw [List.pairwise_append, List.pairwise_cons] at h
      intro b hb hflag
      rw [← htk]
      exact h.2.1.1 b hb hflag
    rw [updateFirst_split _ _ pre t post hpre ht]
    by_cases hk : k = getCoreProperties L
    · subst hk
      simp only [if_true]
      constructor
      · rintro ⟨r, hr, hflag, hkey⟩
        rcases List.mem_append.mp hr with hr | hr
        · exact absurd hkey (hprek r hr)
        · rcases List.mem_cons.mp hr with rfl | hr
          · refine ⟨?_, t, by simp, htk⟩
            simpa [setFavorite] using hflag
          · exact absurd hkey (hpost r hr hflag)
      · rintro ⟨hv, _⟩
        refine ⟨setFavorite v t, by simp, ?_, ?_⟩
        · simp [setFavorite, hv]
        · rw [getCoreProperties_setFavorite, htk]
    · simp only [hk, if_false]
      have hkt : getCoreProperties t ≠ k := fun h => hk (by rw [← h, htk])
      constructor
      · rintro ⟨r, hr, hflag, hkey⟩
        rcases List.mem_append.mp hr with hr | hr
        · exact ⟨r, List.mem_append_left _ hr, hflag, hkey⟩
        · rcases List.mem_cons.mp hr with rfl | hr
          · rw [getCoreProperties_setFavorite] at hkey
            exact absurd hkey hkt
          · exact ⟨r, by simp [hr], hflag, hkey⟩
      · rintro ⟨r, hr, hflag, hkey⟩
        rcases List.mem_append.mp hr with hr | hr
        · exact ⟨r, List.mem_append_left _ hr, hflag, hkey⟩
        · rcases List.mem_cons.mp hr with rfl | hr
          · exact absurd hkey hkt
          · exact ⟨r, by simp [hr], hflag, hkey⟩

theorem keys_filter (L : Flat) (favs : List Flat) (k : CoreProps) :
    (∃ r ∈ favs.filter (fun f => !sameFlat L f), getCoreProperties r = k) ↔
      (k ≠ getCoreProperties L ∧ ∃ r ∈ favs, getCoreProperties r = k) := by
  constructor
  · rintro ⟨r, hr, hkey⟩
    obtain ⟨hr1, hr2⟩ := List.mem_filter.mp hr
    have hne : getCoreProperties r ≠ getCoreProperties L := by simpa [sameFlat] using hr2
    exact ⟨by rw [← hkey]; exact hne, r, hr1, hkey⟩
  · rintro ⟨hne, r, hr, hkey⟩
    refine ⟨r, List.mem_filter.mpr ⟨hr, ?_⟩, hkey⟩
    have : getCoreProperties r ≠ getCoreProperties L := by rw [hkey]; exact hne
    simpa [sameFlat] using this

theorem keys_insert (L : Flat) (master favs : List Flat) (k : CoreProps) :
    (∃ r ∈ (if favs.any (sameFlat L) then favs else favs ++ [favoriteCopy master L]),
        getCoreProperties r = k) ↔
      (k = getCoreProperties L ∨ ∃ r ∈ favs, getCoreProperties r = k) := by
  by_cases hany : favs.any (sameFlat L) = true
  · simp only [hany, if_true]
    constructor
    · intro h; exact Or.inr h
    · rintro (hk | h)
      · obtain ⟨r, hr, hsame⟩ := List.any_eq_true.mp hany
        exact ⟨r, hr, by rw [hk]; exact (sameFlat_iff L r).mp hsame⟩
      · exact h
  · simp only [hany]
    constructor
    · rintro ⟨r, hr, hkey⟩
      rcases List.mem_append.mp hr with hr | hr
      · exact Or.inr ⟨r, hr, hkey⟩
      · rw [List.mem_singleton] at hr
        left
        rw [← hkey, hr, favoriteCopy_props]
    · rintro (hk | ⟨r, hr, hkey⟩)
      · exact ⟨favoriteCopy master L, by simp, by rw [favoriteCopy_props, hk]⟩
      · exact ⟨r, List.mem_append_left _ hr, hkey⟩


theorem act_toggle (s : Storage) (L : Flat) (v : Bool)
    (hc : s.favoriteFlats.isCollection = true) :
    act s (.toggle L v) =
      ⟨⟨.array (updateFirst (sameFlat L) (setFavorite v) s.renteaseFlats.listings),
        .array (if v then
            (if s.favoriteFlats.listings.any (sameFlat L) then s.favoriteFlats.listings
             else s.favoriteFlats.listings ++ [favoriteCopy s.renteaseFlats.listings L])
           else s.favoriteFlats.listings.filter (fun f => !sameFlat L f))⟩, none⟩ := by
  unfold act
  cases s with
  | mk rf fs =>
    simp only []
    rw [favoriteChange_ok L v _ rf fs fs.listings (parseOrEmpty_collection fs hc)]
    cases v
    · rfl
    · simp only [favoriteCopy_eq]

theorem act_remove (s : Storage) (L : Flat)
    (hc1 : s.renteaseFlats.isCollection = true) (hc2 : s.favoriteFlats.isCollection = true) :
    act s (.remove L) =
      ⟨⟨if s.renteaseFlats.listings.any (sameFlat L) then
          .array (updateFirst (sameFlat L) (setFavorite false) s.renteaseFlats.listings)
        else s.renteaseFlats,
        .array (s.favoriteFlats.listings.filter (fun f => !sameFlat L f))⟩, none⟩ := by
  unfold act
  cases s with
  | mk rf fs =>
    simp only []
    rw [removeClick_ok L _ rf fs fs.listings rf.listings (parseOrEmpty_collection fs hc2)
      (parseOrEmpty_collection rf hc1)]

theorem flagFirst_of_unflagged (all : List Flat) (h : ∀ r ∈ all, r.isFavorite ≠ some true) :
    FlagFirst all := by
  unfold FlagFirst
  induction all with
  | nil => exact List.Pairwise.nil
  | cons x xs ih =>
    rw [List.pairwise_cons]
    refine ⟨?_, ih (fun r hr => h r (List.mem_cons_of_mem _ hr))⟩
    intro b hb hflag
    exact absurd hflag (h b (List.mem_cons_of_mem _ hb))

theorem inv_initial (s : Storage) (h : Initial s) : Inv s := by
  obtain ⟨h1, h2, h3, h4⟩ := h
  refine ⟨h1, h2, flagFirst_of_unflagged _ h3, ?_⟩
  intro k
  rw [h4]
  constructor
  · rintro ⟨r, hr, hflag, _⟩
    exact absurd hflag (h3 r hr)
  · rintro ⟨r, hr, _⟩
    simp at hr

theorem inv_toggle (s : Storage) (L : Flat) (v : Bool) (h : Inv s)
    (hL : L ∈ s.renteaseFlats.listings) : Inv (act s (.toggle L v)).state := by
  obtain ⟨h1, h2, h3, h4⟩ := h
  rw [act_toggle s L v h2]
  refine ⟨rfl, rfl, flagFirst_update L v _ h3, ?_⟩
  intro k
  simp only [listings_array]
  rw [flagged_update L v _ h3 k]
  have hex : ∃ r ∈ s.renteaseFlats.listings, getCoreProperties r = getCoreProperties L :=
    ⟨L, hL, rfl⟩
  cases v with
  | true =>
    simp only [if_true]
    rw [keys_insert]
    by_cases hk : k = getCoreProperties L
    · simp [hk, hex]
    · simp only [hk, if_false, false_or]
      exact h4 k
  | false =>
    simp only [Bool.false_eq_true, if_false]
    rw [keys_filter]
    by_cases hk : k = getCoreProperties L
    · simp [hk]
    · simp only [hk, if_false, ne_eq, not_false_eq_true, true_and]
      exact h4 k

theorem inv_remove (s : Storage) (L : Flat) (h : Inv s) :
    Inv (act s (.remove L)).state := by
  obtain ⟨h1, h2, h3, h4⟩ := h
  rw [act_remove s L h1 h2]
  by_cases hany : s.renteaseFlats.listings.any (sameFlat L) = true
  · simp only [hany, if_true]
    refine ⟨rfl, rfl, flagFirst_update L false _ h3, ?_⟩
    intro k
    simp only [listings_array]
    rw [flagged_update L false _ h3 k, keys_filter]
    by_cases hk : k = getCoreProperties L
    · simp [hk]
    · simp only [hk, if_false, ne_eq, not_false_eq_true, true_and]
      exact h4 k
  · simp only [hany]
    refine ⟨h1, rfl, h3, ?_⟩
    intro k
    simp only [listings_array]
    rw [keys_filter]
    by_cases hk : k = getCoreProperties L
    · subst hk
      simp only [ne_eq, not_true_eq_false, false_and, iff_false]
      rintro ⟨r, hr, _, hkey⟩
      apply hany
      exact any_sameFlat_true L _ ⟨r, hr, hkey⟩
    · simp only [ne_eq, hk, not_false_eq_true, true_and]
      exact h4 k

theorem inv_reachable (s0 s : Storage) (h0 : Initial s0) (hr : Reachable s0 s) : Inv s := by
  induction hr with
  | start => exact inv_initial s0 h0
  | step a _ hoff ih =>
    cases a with
    | toggle L v => exact inv_toggle _ L v ih hoff
    | remove L => exact inv_remove _ L ih

theorem act_no_error (s : Storage) (h : Inv s) (a : Action) : (act s a).error = none := by
  cases a with
  | toggle L v => rw [act_toggle s L v h.2.1]
  | remove L => rw [act_remove s L h.1 h.2.1]

/-- C4 (cross-collection invariant): from a start in which no All-Listings
record is flagged and Favorites is empty, after any finite sequence of toggles
(each on a listing of All-Listings) and removals (each on a listing of
Favorites) the identity keys of the records with isFavorite = true are exactly
the identity keys present in Favorites, and no handler raises in such a state. -/
theorem cross_collection_invariant (s0 s : Storage) (h0 : Initial s0) (hr : Reachable s0 s) :
    KeysAgree s.renteaseFlats.listings s.favoriteFlats.listings ∧
    (∀ a : Action, (act s a).error = none) :=
  ⟨(inv_reachable s0 s h0 hr).2.2.2, act_no_error s (inv_reachable s0 s h0 hr)⟩

/-- Favouriting Vernon, favouriting Kelowna and removing Vernon from the
favourites page, an instance of `cross_collection_invariant`. -/
theorem cross_collection_invariant_witness :
    KeysAgree
      (act (act (act ⟨.array [kelowna, vernon], .absent⟩ (.toggle vernon true)).state
        (.toggle kelowna true)).state (.remove (setFavorite true vernon))).state.renteaseFlats.listings
      (act (act (act ⟨.array [kelowna, vernon], .absent⟩ (.toggle vernon true)).state
        (.toggle kelowna true)).state (.remove (setFavorite true vernon))).state.favoriteFlats.listings ∧
    (act (act (act ⟨.array [kelowna, vernon], .absent⟩ (.toggle vernon true)).state
        (.toggle kelowna true)).state (.remove (setFavorite true vernon))).state =
      ⟨.array [setFavorite true kelowna, setFavorite false vernon],
       .array [setFavorite true kelowna]⟩ :=
  ⟨(cross_collection_invariant ⟨.array [kelowna, vernon], .absent⟩ _
      ⟨rfl, rfl, by decide, rfl⟩
      (Reachable.step (.remove (setFavorite true vernon))
        (Reachable.step (.toggle kelowna true)
          (Reachable.step (.toggle vernon true) Reachable.start
            (by show vernon ∈ _; decide))
          (by show kelowna ∈ _; decide))
        (by show setFavorite true vernon ∈ _; decide))).1,
   by decide⟩

/-! ## Filter engine: idempotence, identity, single criteria -/

theorem condFilter_eq {α : Type} (g : Prop) [Decidable g] (p : α → Bool) (xs : List α) :
    (if g then xs.filter p else xs) = xs.filter (fun x => !decide g || p x) := by
  by_cases hg : g <;> simp [hg]

theorem satisfiedBy_criteriaOf (inp : FilterInputs) (flat : Flat) :
    (criteriaOf inp).satisfiedBy flat = satisfiesAll inp flat := rfl

/-- The guarded filter steps compute the subsequence satisfying the supplied criteria. -/
theorem filterFlats_eq_filterBy (inp : FilterInputs) (flats : List Flat) :
    filterFlats inp flats = filterBy (criteriaOf inp) flats := by
  unfold filterFlats filterBy
  simp only [condFilter_eq]
  simp only [List.filter_filter]
  apply List.filter_congr
  intro x _
  rw [satisfiedBy_criteriaOf, Bool.eq_iff_iff, satisfiesAll_iff]
  simp only [Bool.and_eq_true, Bool.or_eq_true, Bool.not_eq_true', decide_eq_false_iff_not,
    Bool.not_eq_true, ne_eq, not_not]
  tauto

/-- C11 (filter idempotence): filtering an already filtered result again with
the same inputs yields the identical sequence. -/
theorem filter_idempotence (inp : FilterInputs) (flats : List Flat) :
    filterFlats inp (filterFlats inp flats) = filterFlats inp flats := by
  rw [filterFlats_eq_filterBy, filterFlats_eq_filterBy]
  unfold filterBy
  rw [List.filter_filter]
  apply List.filter_congr
  intro x _
  simp

theorem parseFloat_empty : parseFloat "" = JSNum.nan := by decide

theorem filterFlats_no_criteria (flats : List Flat) :
    filterFlats ⟨"", "", "", "", ""⟩ flats = flats := by
  have h1 : toLowerCase (trim "") = "" := by decide
  unfold filterFlats
  simp [h1, parseFloat_empty, JSNum.isNaN]

/-- C12 (pipeline identity): with an empty city text, four empty bounds and no
sort key the sequence handed to the renderer is the All-Listings sequence
itself, element for element and in the same order. -/
theorem pipeline_identity (o : SortOrder) (flats : List Flat) :
    applyFiltersAndRender ⟨"", "", "", "", ""⟩ none o flats = .ok flats := by
  unfold applyFiltersAndRender
  rw [filterFlats_no_criteria]
  rfl

theorem toLowerCase_eq_empty (x : String) : toLowerCase x = "" ↔ x = "" := by
  constructor
  · intro h
    have h2 := congrArg String.data h
    simp only [toLowerCase] at h2
    have h3 : x.data = [] := by simpa using h2
    exact String.ext h3
  · intro h
    subst h
    rfl

theorem boundCriterion_ne_none (text : String) :
    boundCriterion text ≠ none ↔ (parseFloat text).isNaN = false := by
  unfold boundCriterion
  cases h : (parseFloat text).isNaN <;> simp [h]

theorem boundCriterion_eq_none (text : String) :
    boundCriterion text = none ↔ (parseFloat text).isNaN = true := by
  unfold boundCriterion
  cases h : (parseFloat text).isNaN <;> simp [h]

theorem cityCriterion_ne_none (inp : FilterInputs) :
    cityCriterion inp ≠ none ↔ toLowerCase (trim inp.filterCity) ≠ "" := by
  unfold cityCriterion
  by_cases h : toLowerCase (trim inp.filterCity) = "" <;> simp [h]

theorem homeFilterFlats_present (a b c d e : String) (flats : List Flat) :
    homeFilterFlats ⟨some a, some b, some c, some d, some e⟩ flats =
      filterFlats ⟨a, b, c, d, e⟩ flats := rfl

theorem mem_filterFlats_city_only (c : String) (flats : List Flat) (L : Flat) :
    L ∈ filterFlats ⟨c, "", "", "", ""⟩ flats ↔
      L ∈ flats ∧ (toLowerCase (trim c) ≠ "" → cityCallback (toLowerCase (trim c)) L = true) := by
  rw [mem_filterFlats]
  simp [parseFloat_empty, JSNum.isNaN]

/-- The all-flats filter is the parametrised one at `toLowerCase`. -/
theorem filterFlats_eq_with (inp : FilterInputs) (flats : List Flat) :
    filterFlats inp flats = filterFlatsWith toLowerCase inp flats := rfl

/-- The favourites filter is the parametrised one at `toLowerCase`. -/
theorem homeFilterFlats_eq_with (inp : HomeFilterInputs) (flats : List Flat) :
    homeFilterFlats inp flats = homeFilterFlatsWith toLowerCase inp flats := rfl

/-- The sort stage is the parametrised one at `toLowerCase`. -/
theorem sortFlats_eq_with (k : Option SortKey) (o : SortOrder) (flats : List Flat) :
    sortFlats k o flats = sortFlatsWith toLowerCase k o flats := rfl

theorem homeFilterFlatsWith_present (lower : String → String) (a b c d e : String)
    (flats : List Flat) :
    homeFilterFlatsWith lower ⟨some a, some b, some c, some d, some e⟩ flats =
      filterFlatsWith lower ⟨a, b, c, d, e⟩ flats := rfl

theorem mem_filterFlatsWith_city_only (lower : String → String) (c : String)
    (flats : List Flat) (L : Flat) :
    L ∈ filterFlatsWith lower ⟨c, "", "", "", ""⟩ flats ↔
      L ∈ flats ∧ (lower (trim c) ≠ "" → cityCallbackWith lower (lower (trim c)) L = true) := by
  unfold filterFlatsWith
  simp only [mem_condFilter, parseFloat_empty, JSNum.isNaN]
  simp

/-- C13 (city criterion, amended): for a listing with a string city `s` and a
criterion text `c` that is not empty once white space is trimmed from both
ends, the listing passes the city filter of either page exactly when the
lower-cased `s` contains the lower-cased, trimmed `c`; a text that is empty
after trimming supplies no criterion and every listing passes.  The lower-casing
is any function `lower` that maps the empty text, and no other, to the empty
text, as `String.prototype.toLowerCase` does. -/
theorem city_criterion (lower : String → String) (hlower : ∀ x, lower x = "" ↔ x = "")
    (c : String) (flats : List Flat) (L : Flat) (s : String) (hs : L.city = some s) :
    (trim c ≠ "" →
      ((L ∈ filterFlatsWith lower ⟨c, "", "", "", ""⟩ flats ↔
          L ∈ flats ∧ includes (lower s) (lower (trim c)) = true) ∧
       (L ∈ homeFilterFlatsWith lower ⟨some c, some "", some "", some "", some ""⟩ flats ↔
          L ∈ flats ∧ includes (lower s) (lower (trim c)) = true))) ∧
    (trim c = "" →
      (filterFlatsWith lower ⟨c, "", "", "", ""⟩ flats = flats ∧
       homeFilterFlatsWith lower ⟨some c, some "", some "", some "", some ""⟩ flats = flats)) := by
  rw [homeFilterFlatsWith_present]
  constructor
  · intro htrim
    have hne : lower (trim c) ≠ "" := fun h => htrim ((hlower _).mp h)
    have hdata : (lower (trim c)).data ≠ [] := fun h => hne (String.ext h)
    have hcb : cityCallbackWith lower (lower (trim c)) L =
        includes (lower s) (lower (trim c)) := by
      simp only [cityCallbackWith, hs]
      by_cases hse : s = ""
      · subst hse
        rw [(hlower "").mpr rfl]
        cases hd : (lower (trim c)).data with
        | nil => exact absurd hd hdata
        | cons x xs => simp [includes, includesChars, hd]
      · simp [hse]
    have : L ∈ filterFlatsWith lower ⟨c, "", "", "", ""⟩ flats ↔
        L ∈ flats ∧ includes (lower s) (lower (trim c)) = true := by
      rw [mem_filterFlatsWith_city_only, ← hcb]
      simp [hne]
    exact ⟨this, this⟩
  · intro htrim
    have h1 : lower (trim c) = "" := (hlower _).mpr htrim
    have : filterFlatsWith lower ⟨c, "", "", "", ""⟩ flats = flats := by
      unfold filterFlatsWith
      simp [h1, parseFloat_empty, JSNum.isNaN]
    exact ⟨this, this⟩

/-- C13 as stated fails: with the criterion text " kel " the Kelowna listing
passes the city filter of both pages although the lower-cased city does not
contain the lower-cased text, because the code trims the text first. -/
theorem city_criterion_counterexample :
    " kel " ≠ "" ∧ kelowna.city = some "Kelowna" ∧
    kelowna ∈ filterFlats ⟨" kel ", "", "", "", ""⟩ [kelowna] ∧
    kelowna ∈ homeFilterFlats ⟨some " kel ", some "", some "", some "", some ""⟩ [kelowna] ∧
    includes (toLowerCase "Kelowna") (toLowerCase " kel ") = false := by
  decide

/-- The Kelowna listing and the criterion text " kEL " at the lower-casing
`toLowerCase`, an instance of `city_criterion`: of the Kelowna and Vernon
listings the filter keeps the first. -/
theorem city_criterion_witness :
    (∀ x, toLowerCase x = "" ↔ x = "") ∧
    kelowna.city = some "Kelowna" ∧ trim " kEL " ≠ "" ∧
    filterFlatsWith toLowerCase ⟨" kEL ", "", "", "", ""⟩ [kelowna, vernon] = [kelowna] ∧
    (kelowna ∈ filterFlatsWith toLowerCase ⟨" kEL ", "", "", "", ""⟩ [kelowna, vernon] ↔
      kelowna ∈ [kelowna, vernon] ∧
        includes (toLowerCase "Kelowna") (toLowerCase (trim " kEL ")) = true) :=
  ⟨toLowerCase_eq_empty, rfl, by decide, by decide,
    ((city_criterion toLowerCase toLowerCase_eq_empty " kEL " [kelowna, vernon] kelowna
      "Kelowna" rfl).1 (by decide)).1⟩

/-- C14 (a missing field is not a wildcard): a listing without a price is not in
the filtered result when a minimum or maximum price is supplied, one without an
area is not when an area bound is supplied, and one without a city is not when a
city criterion is supplied. -/
theorem missing_field_excluded (inp : FilterInputs) (flats : List Flat) (L : Flat) :
    (L.price = none →
      (boundCriterion inp.filterMinPrice ≠ none ∨ boundCriterion inp.filterMaxPrice ≠ none) →
      L ∉ filterFlats inp flats) ∧
    (L.area = none →
      (boundCriterion inp.filterMinArea ≠ none ∨ boundCriterion inp.filterMaxArea ≠ none) →
      L ∉ filterFlats inp flats) ∧
    (L.city = none → cityCriterion inp ≠ none → L ∉ filterFlats inp flats) := by
  refine ⟨?_, ?_, ?_⟩
  · intro hp hb hmem
    rw [mem_filterFlats] at hmem
    obtain ⟨_, _, h2, h3, _, _⟩ := hmem
    rcases hb with hb | hb
    · have := h2 ((boundCriterion_ne_none _).mp hb)
      simp [minPriceCallback, hp] at this
    · have := h3 ((boundCriterion_ne_none _).mp hb)
      simp [maxPriceCallback, hp] at this
  · intro hp hb hmem
    rw [mem_filterFlats] at hmem
    obtain ⟨_, _, _, _, h4, h5⟩ := hmem
    rcases hb with hb | hb
    · have := h4 ((boundCriterion_ne_none _).mp hb)
      simp [minAreaCallback, hp] at this
    · have := h5 ((boundCriterion_ne_none _).mp hb)
      simp [maxAreaCallback, hp] at this
  · intro hc hb hmem
    rw [mem_filterFlats] at hmem
    obtain ⟨_, h1, _⟩ := hmem
    have := h1 ((cityCriterion_ne_none _).mp hb)
    simp [cityCallback, hc] at this

/-- The record without a city and the criterion "r", an instance of
`missing_field_excluded`. -/
theorem missing_field_excluded_witness :
    noCity.city = none ∧ cityCriterion ⟨"r", "", "", "", ""⟩ ≠ none ∧
    noCity ∉ filterFlats ⟨"r", "", "", "", ""⟩ [kelowna, noCity, vernon] ∧
    filterFlats ⟨"r", "", "", "", ""⟩ [kelowna, noCity, vernon] = [vernon] :=
  ⟨rfl, by decide,
    (missing_field_excluded ⟨"r", "", "", "", ""⟩ [kelowna, noCity, vernon] noCity).2.2 rfl
      (by decide),
    by decide⟩

/-- C15 (unparsable filter bound): when the text of a bound does not parse
(`parseFloat` gives NaN, as it does for the empty text) the filtered result is
the one obtained from the criteria with that bound omitted, and the one the code
gives for the empty text; the filter stage is a total function, so nothing is
raised.  With minimum price "abc" both sample listings pass. -/
theorem unparsable_bound :
    (∀ (inp : FilterInputs) (flats : List Flat),
      ((parseFloat inp.filterMinPrice).isNaN = true →
        filterFlats inp flats = filterBy { criteriaOf inp with minPrice := none } flats ∧
        filterFlats inp flats = filterFlats { inp with filterMinPrice := "" } flats) ∧
      ((parseFloat inp.filterMaxPrice).isNaN = true →
        filterFlats inp flats = filterBy { criteriaOf inp with maxPrice := none } flats ∧
        filterFlats inp flats = filterFlats { inp with filterMaxPrice := "" } flats) ∧
      ((parseFloat inp.filterMinArea).isNaN = true →
        filterFlats inp flats = filterBy { criteriaOf inp with minArea := none } flats ∧
        filterFlats inp flats = filterFlats { inp with filterMinArea := "" } flats) ∧
      ((parseFloat inp.filterMaxArea).isNaN = true →
        filterFlats inp flats = filterBy { criteriaOf inp with maxArea := none } flats ∧
        filterFlats inp flats = filterFlats { inp with filterMaxArea := "" } flats)) ∧
    (parseFloat "abc").isNaN = true ∧
    filterFlats ⟨"", "abc", "", "", ""⟩ [kelowna, vernon] = [kelowna, vernon] ∧
    filterFlats ⟨"", "abc", "1000", "", ""⟩ [kelowna, vernon] = [vernon] := by
  have hempty : boundCriterion "" = none := by decide
  refine ⟨?_, by decide, by decide, by decide⟩
  intro inp flats
  refine ⟨?_, ?_, ?_, ?_⟩
  · intro h
    have hb := (boundCriterion_eq_none _).mpr h
    rw [filterFlats_eq_filterBy, filterFlats_eq_filterBy]
    simp only [criteriaOf, cityCriterion, hb, hempty, and_self]
  · intro h
    have hb := (boundCriterion_eq_none _).mpr h
    rw [filterFlats_eq_filterBy, filterFlats_eq_filterBy]
    simp only [criteriaOf, cityCriterion, hb, hempty, and_self]
  · intro h
    have hb := (boundCriterion_eq_none _).mpr h
    rw [filterFlats_eq_filterBy, filterFlats_eq_filterBy]
    simp only [criteriaOf, cityCriterion, hb, hempty, and_self]
  · intro h
    have hb := (boundCriterion_eq_none _).mpr h
    rw [filterFlats_eq_filterBy, filterFlats_eq_filterBy]
    simp only [criteriaOf, cityCriterion, hb, hempty, and_self]

/-! ## Sort engine: city key, stability, exceptions -/

theorem unitsLt_irrefl : ∀ a : List Nat, unitsLt a a = false
  | [] => rfl
  | x :: xs => by simp [unitsLt, unitsLt_irrefl xs]

theorem unitsLt_trans : ∀ a b c : List Nat,
    unitsLt a b = true → unitsLt b c = true → unitsLt a c = true
  | _, [], _ => by intro h; simp [unitsLt] at h
  | _, _ :: _, [] => by intro _ h; simp [unitsLt] at h
  | [], _ :: _, _ :: _ => by intro _ _; simp [unitsLt]
  | x :: xs, y :: ys, z :: zs => by
    intro h1 h2
    simp only [unitsLt, Bool.or_eq_true, Bool.and_eq_true, decide_eq_true_eq] at h1 h2 ⊢
    rcases h1 with h1 | ⟨h1, h1r⟩
    · rcases h2 with h2 | ⟨h2, _⟩
      · left; omega
      · left; omega
    · rcases h2 with h2 | ⟨h2, h2r⟩
      · left; omega
      · right; exact ⟨by omega, unitsLt_trans xs ys zs h1r h2r⟩

theorem unitsLt_trichotomy : ∀ a b : List Nat,
    unitsLt a b = true ∨ a = b ∨ unitsLt b a = true
  | [], [] => by simp
  | [], _ :: _ => by simp [unitsLt]
  | _ :: _, [] => by simp [unitsLt]
  | x :: xs, y :: ys => by
    simp only [unitsLt, Bool.or_eq_true, Bool.and_eq_true, decide_eq_true_eq, List.cons.injEq]
    rcases Nat.lt_trichotomy x y with h | h | h
    · left; left; exact h
    · rcases unitsLt_trichotomy xs ys with h2 | h2 | h2
      · left; right; exact ⟨h, h2⟩
      · right; left; exact ⟨h, h2⟩
      · right; right; right; exact ⟨h.symm, h2⟩
    · right; right; left; exact h

theorem stringLt_irrefl (x : String) : stringLt x x = false := unitsLt_irrefl _

theorem stringLt_asymm (x y : String) (h : stringLt x y = true) : stringLt y x = false := by
  unfold stringLt at *
  cases h2 : unitsLt (utf16 y.data) (utf16 x.data) with
  | false => rfl
  | true =>
    have := unitsLt_trans _ _ _ h h2
    rw [unitsLt_irrefl] at this
    exact absurd this (by simp)

/-- `<=` on strings is total. -/
theorem stringLe_total (x y : String) : stringLe x y = true ∨ stringLe y x = true := by
  unfold stringLe
  cases h : stringLt y x with
  | false => left; rfl
  | true => right; simp [stringLt_asymm y x h]

/-- `<=` on strings is transitive. -/
theorem stringLe_trans (x y z : String) (h1 : stringLe x y = true) (h2 : stringLe y z = true) :
    stringLe x z = true := by
  unfold stringLe stringLt at *
  simp only [Bool.not_eq_true'] at *
  cases h3 : unitsLt (utf16 z.data) (utf16 x.data) with
  | false => rfl
  | true =>
    rcases unitsLt_trichotomy (utf16 x.data) (utf16 y.data) with h | h | h
    · have := unitsLt_trans _ _ _ h3 h
      rw [h2] at this
      exact absurd this (by simp)
    · rw [h] at h3
      rw [h2] at h3
      exact absurd h3 (by simp)
    · rw [h1] at h
      exact absurd h (by simp)

theorem cityBefore_iff (o : SortOrder) (a b : Flat) :
    cityBefore o a b ↔
      (match o with
        | .asc => stringLe (lowerCity a) (lowerCity b) = true
        | .desc => stringGe (lowerCity a) (lowerCity b) = true) := by
  unfold cityBefore cityCompare orderResult stringLe stringGe
  cases o
  · cases h1 : stringLt (lowerCity a) (lowerCity b) with
    | true => simp [stringLt_asymm _ _ h1]
    | false =>
      cases h2 : stringLt (lowerCity b) (lowerCity a) <;> simp
  · cases h1 : stringLt (lowerCity a) (lowerCity b) with
    | true => simp
    | false =>
      cases h2 : stringLt (lowerCity b) (lowerCity a) <;> simp

theorem stringGe_iff_le (x y : String) : stringGe x y = stringLe y x := rfl

theorem cityBefore_total (o : SortOrder) (a b : Flat) : cityBefore o a b ∨ cityBefore o b a := by
  rw [cityBefore_iff, cityBefore_iff]
  cases o
  · exact stringLe_total _ _
  · simp only [stringGe_iff_le]
    exact (stringLe_total _ _).symm

theorem cityBefore_trans (o : SortOrder) (a b c : Flat)
    (h1 : cityBefore o a b) (h2 : cityBefore o b c) : cityBefore o a c := by
  rw [cityBefore_iff] at *
  cases o
  · exact stringLe_trans _ _ _ h1 h2
  · simp only [stringGe_iff_le] at *
    exact stringLe_trans _ _ _ h2 h1

/-! ### The sort returns a permutation and depends on the comparator only on the input -/

theorem sortInsert_perm {α ε : Type} (cmp : α → α → Except ε Int) (x : α) :
    ∀ (ys r : List α), sortInsert cmp x ys = .ok r → List.Perm r (x :: ys)
  | [], r => by
    intro h
    simp only [sortInsert, Except.ok.injEq] at h
    subst h
    exact List.Perm.refl _
  | y :: ys, r => by
    intro h
    simp only [sortInsert] at h
    cases hc : cmp x y with
    | error e => rw [hc] at h; simp at h
    | ok c =>
      rw [hc] at h
      simp only at h
      by_cases hle : c ≤ 0
      · simp only [hle, if_true, Except.ok.injEq] at h
        subst h
        exact List.Perm.refl _
      · simp only [hle, if_false] at h
        cases hr : sortInsert cmp x ys with
        | error e => rw [hr] at h; simp at h
        | ok r2 =>
          rw [hr] at h
          simp only [Except.ok.injEq] at h
          subst h
          exact ((sortInsert_perm cmp x ys r2 hr).cons y).trans (List.Perm.swap x y ys)

theorem arraySort_perm {α ε : Type} (cmp : α → α → Except ε Int) :
    ∀ (xs ys : List α), arraySort cmp xs = .ok ys → List.Perm ys xs
  | [], ys => by
    intro h
    simp only [arraySort, Except.ok.injEq] at h
    subst h
    exact List.Perm.refl _
  | x :: xs, ys => by
    intro h
    simp only [arraySort] at h
    cases hs : arraySort cmp xs with
    | error e => rw [hs] at h; simp at h
    | ok s =>
      rw [hs] at h
      simp only at h
      exact (sortInsert_perm cmp x s ys h).trans ((arraySort_perm cmp xs s hs).cons x)

theorem sortInsert_congr {α ε : Type} (cmp cmp2 : α → α → Except ε Int) (x : α) :
    ∀ (ys : List α), (∀ y ∈ ys, cmp x y = cmp2 x y) →
      sortInsert cmp x ys = sortInsert cmp2 x ys
  | [] => by intro _; rfl
  | y :: ys => by
    intro h
    simp only [sortInsert]
    rw [h y (List.mem_cons_self _ _),
      sortInsert_congr cmp cmp2 x ys (fun z hz => h z (List.mem_cons_of_mem _ hz))]

theorem arraySort_congr {α ε : Type} (cmp cmp2 : α → α → Except ε Int) :
    ∀ (xs : List α), (∀ a ∈ xs, ∀ b ∈ xs, cmp a b = cmp2 a b) →
      arraySort cmp xs = arraySort cmp2 xs
  | [] => by intro _; rfl
  | x :: xs => by
    intro h
    have ih := arraySort_congr cmp cmp2 xs
      (fun a ha b hb => h a (List.mem_cons_of_mem _ ha) b (List.mem_cons_of_mem _ hb))
    simp only [arraySort]
    rw [ih]
    cases hs : arraySort cmp2 xs with
    | error e => rfl
    | ok s =>
      simp only
      apply sortInsert_congr
      intro y hy
      have hy2 : y ∈ xs := (arraySort_perm cmp2 xs s hs).subset hy
      exact h x (List.mem_cons_self _ _) y (List.mem_cons_of_mem _ hy2)

theorem sortComparator_city (o : SortOrder) (a b : Flat)
    (ha : a.city.isSome = true) (hb : b.city.isSome = true) :
    sortComparator .city o a b = .ok (cityCompare o a b) := by
  cases hca : a.city with
  | none => rw [hca] at ha; simp at ha
  | some sa =>
    cases hcb : b.city with
    | none => rw [hcb] at hb; simp at hb
    | some sb =>
      simp [sortComparator, Flat.get, cityCompare, lowerCity, hca, hcb]

theorem sortFlats_city (o : SortOrder) (xs : List Flat)
    (h : ∀ x ∈ xs, x.city.isSome = true) :
    sortFlats (some .city) o xs = .ok (List.insertionSort (cityBefore o) xs) := by
  simp only [sortFlats]
  rw [arraySort_congr _ (fun a b => .ok (cityCompare o a b)) xs
    (fun a ha b hb => sortComparator_city o a b (h a ha) (h b hb))]
  exact arraySort_ok _ xs

theorem insertionSort_city_sorted (o : SortOrder) (xs : List Flat) :
    List.Sorted (cityBefore o) (List.insertionSort (cityBefore o) xs) := by
  haveI : IsTotal Flat (cityBefore o) := ⟨cityBefore_total o⟩
  haveI : IsTrans Flat (cityBefore o) := ⟨cityBefore_trans o⟩
  exact List.sorted_insertionSort _ xs


theorem sortComparator_city_equal (o : SortOrder) (a b : Flat) (sa sb : String)
    (ha : a.city = some sa) (hb : b.city = some sb) (h : toLowerCase sa = toLowerCase sb) :
    sortComparator .city o a b = .ok 0 := by
  simp [sortComparator, Flat.get, ha, hb, h, stringLt_irrefl, orderResult]

/-- Being placed before, on the city key, is the order of the lower-cased cities. -/
theorem cityBeforeWith_iff (lower : String → String) (o : SortOrder) (a b : Flat) :
    cityBeforeWith lower o a b ↔
      (match o with
        | .asc => stringLe (lowerCityWith lower a) (lowerCityWith lower b) = true
        | .desc => stringGe (lowerCityWith lower a) (lowerCityWith lower b) = true) := by
  unfold cityBeforeWith cityCompareWith orderResult stringLe stringGe
  cases o
  · cases h1 : stringLt (lowerCityWith lower a) (lowerCityWith lower b) with
    | true => simp [stringLt_asymm _ _ h1]
    | false =>
      cases h2 : stringLt (lowerCityWith lower b) (lowerCityWith lower a) <;> simp
  · cases h1 : stringLt (lowerCityWith lower a) (lowerCityWith lower b) with
    | true => simp
    | false =>
      cases h2 : stringLt (lowerCityWith lower b) (lowerCityWith lower a) <;> simp

theorem cityBeforeWith_total (lower : String → String) (o : SortOrder) (a b : Flat) :
    cityBeforeWith lower o a b ∨ cityBeforeWith lower o b a := by
  rw [cityBeforeWith_iff, cityBeforeWith_iff]
  cases o
  · exact stringLe_total _ _
  · simp only [stringGe_iff_le]
    exact (stringLe_total _ _).symm

theorem cityBeforeWith_trans (lower : String → String) (o : SortOrder) (a b c : Flat)
    (h1 : cityBeforeWith lower o a b) (h2 : cityBeforeWith lower o b c) :
    cityBeforeWith lower o a c := by
  rw [cityBeforeWith_iff] at *
  cases o
  · exact stringLe_trans _ _ _ h1 h2
  · simp only [stringGe_iff_le] at *
    exact stringLe_trans _ _ _ h2 h1

/-- On two listings with string cities the comparator returns without raising. -/
theorem sortComparatorWith_city (lower : String → String) (o : SortOrder) (a b : Flat)
    (ha : a.city.isSome = true) (hb : b.city.isSome = true) :
    sortComparatorWith lower .city o a b = .ok (cityCompareWith lower o a b) := by
  cases hca : a.city with
  | none => rw [hca] at ha; simp at ha
  | some sa =>
    cases hcb : b.city with
    | none => rw [hcb] at hb; simp at hb
    | some sb =>
      simp [sortComparatorWith, Flat.get, cityCompareWith, lowerCityWith, hca, hcb]

/-- On listings with string cities the sort by city is the insertion sort by
`cityBeforeWith`. -/
theorem sortFlatsWith_city (lower : String → String) (o : SortOrder) (xs : List Flat)
    (h : ∀ x ∈ xs, x.city.isSome = true) :
    sortFlatsWith lower (some .city) o xs =
      .ok (List.insertionSort (cityBeforeWith lower o) xs) := by
  simp only [sortFlatsWith]
  rw [arraySort_congr _ (fun a b => .ok (cityCompareWith lower o a b)) xs
    (fun a ha b hb => sortComparatorWith_city lower o a b (h a ha) (h b hb))]
  exact arraySort_ok _ xs

theorem insertionSort_cityWith_sorted (lower : String → String) (o : SortOrder)
    (xs : List Flat) :
    List.Sorted (cityBeforeWith lower o) (List.insertionSort (cityBeforeWith lower o) xs) := by
  haveI : IsTotal Flat (cityBeforeWith lower o) := ⟨cityBeforeWith_total lower o⟩
  haveI : IsTrans Flat (cityBeforeWith lower o) := ⟨cityBeforeWith_trans lower o⟩
  exact List.sorted_insertionSort _ xs

/-- C16 (sort by city): when every listing has a string city, sorting by city
returns a sequence in which every adjacent pair has lower-cased cities in code
unit order, `<=` when ascending and `>=` when descending; two cities with the
same lower-cased text compare as equal.  This holds for every lower-casing
function `lower` in the place of `String.prototype.toLowerCase`. -/
theorem sort_city_order (lower : String → String) (o : SortOrder) (xs : List Flat)
    (h : ∀ x ∈ xs, x.city.isSome = true) :
    ∃ ys, sortFlatsWith lower (some .city) o xs = .ok ys ∧
      (∀ y ∈ ys, y.city.isSome = true) ∧
      (o = .asc → List.Chain'
        (fun a b => stringLe (lowerCityWith lower a) (lowerCityWith lower b) = true) ys) ∧
      (o = .desc → List.Chain'
        (fun a b => stringGe (lowerCityWith lower a) (lowerCityWith lower b) = true) ys) ∧
      (∀ a b sa sb, a.city = some sa → b.city = some sb → lower sa = lower sb →
        sortComparatorWith lower .city o a b = .ok 0) := by
  refine ⟨_, sortFlatsWith_city lower o xs h, ?_, ?_, ?_, ?_⟩
  · intro y hy
    exact h y ((List.perm_insertionSort _ xs).subset hy)
  · intro ho
    subst ho
    exact (List.Pairwise.chain' (insertionSort_cityWith_sorted lower .asc xs)).imp
      (fun a b hab => (cityBeforeWith_iff lower .asc a b).mp hab)
  · intro ho
    subst ho
    exact (List.Pairwise.chain' (insertionSort_cityWith_sorted lower .desc xs)).imp
      (fun a b hab => (cityBeforeWith_iff lower .desc a b).mp hab)
  · intro a b sa sb ha hb hl
    simp [sortComparatorWith, Flat.get, ha, hb, hl, stringLt_irrefl, orderResult]

/-- Sorting Vernon, kelowna, KELOWNA by city at the lower-casing `toLowerCase`,
an instance of `sort_city_order`: both Kelowna listings come before Vernon, in
their input order, although "Vernon" is before "kelowna" in code unit order. -/
theorem sort_city_order_witness :
    (∀ x ∈ [vernon, kelownaLower, kelownaUpper], x.city.isSome = true) ∧
    stringLt "Vernon" "kelowna" = true ∧
    sortFlatsWith toLowerCase (some .city) .asc [vernon, kelownaLower, kelownaUpper] =
      .ok [kelownaLower, kelownaUpper, vernon] ∧
    sortFlatsWith toLowerCase (some .city) .desc [kelownaLower, vernon, kelownaUpper] =
      .ok [vernon, kelownaLower, kelownaUpper] ∧
    ∃ ys, sortFlatsWith toLowerCase (some .city) .asc
        [vernon, kelownaLower, kelownaUpper] = .ok ys ∧
      (SortOrder.asc = .asc → List.Chain'
        (fun a b => stringLe (lowerCityWith toLowerCase a) (lowerCityWith toLowerCase b) = true)
        ys) :=
  ⟨by decide, by decide, by decide, by decide,
    (sort_city_order toLowerCase .asc [vernon, kelownaLower, kelownaUpper]
      (by decide)).imp (fun _ hys => ⟨hys.1, hys.2.2.1⟩)⟩

/-! ### Stability -/

theorem sortInsert_sublist {α ε : Type} (cmp : α → α → Except ε Int) (x : α) :
    ∀ (ys r : List α), sortInsert cmp x ys = .ok r → List.Sublist ys r
  | [], r => by intro _; exact List.nil_sublist r
  | y :: ys, r => by
    intro h
    simp only [sortInsert] at h
    cases hc : cmp x y with
    | error e => rw [hc] at h; simp at h
    | ok c =>
      rw [hc] at h
      simp only at h
      by_cases hle : c ≤ 0
      · simp only [hle, if_true, Except.ok.injEq] at h
        subst h
        exact List.sublist_cons_self _ _
      · simp only [hle, if_false] at h
        cases hr : sortInsert cmp x ys with
        | error e => rw [hr] at h; simp at h
        | ok r2 =>
          rw [hr] at h
          simp only [Except.ok.injEq] at h
          subst h
          exact (sortInsert_sublist cmp x ys r2 hr).cons₂ y

theorem sortInsert_pair {α ε : Type} (cmp : α → α → Except ε Int) (x b : α) (c : Int)
    (hxb : cmp x b = .ok c) (hc0 : c ≤ 0) :
    ∀ (ys r : List α), sortInsert cmp x ys = .ok r → b ∈ ys → List.Sublist [x, b] r
  | [], r => by intro _ hb; simp at hb
  | y :: ys, r => by
    intro h hb
    simp only [sortInsert] at h
    cases hc : cmp x y with
    | error e => rw [hc] at h; simp at h
    | ok c2 =>
      rw [hc] at h
      simp only at h
      by_cases hle : c2 ≤ 0
      · simp only [hle, if_true, Except.ok.injEq] at h
        subst h
        exact (List.singleton_sublist.mpr hb).cons₂ x
      · simp only [hle, if_false] at h
        cases hr : sortInsert cmp x ys with
        | error e => rw [hr] at h; simp at h
        | ok r2 =>
          rw [hr] at h
          simp only [Except.ok.injEq] at h
          subst h
          rcases List.mem_cons.mp hb with hby | hb2
          · subst hby
            rw [hxb] at hc
            simp only [Except.ok.injEq] at hc
            subst hc
            exact absurd hc0 hle
          · exact (sortInsert_pair cmp x b c hxb hc0 ys r2 hr hb2).cons y

/-- A pair in input order whose comparison is not positive keeps its order. -/
theorem arraySort_stable {α ε : Type} (cmp : α → α → Except ε Int) (a b : α) (c : Int)
    (hab : cmp a b = .ok c) (hc0 : c ≤ 0) :
    ∀ (xs ys : List α), arraySort cmp xs = .ok ys → List.Sublist [a, b] xs →
      List.Sublist [a, b] ys
  | [], ys => by intro _ h; simp at h
  | x :: xs, ys => by
    intro h hsub
    simp only [arraySort] at h
    cases hs : arraySort cmp xs with
    | error e => rw [hs] at h; simp at h
    | ok s =>
      rw [hs] at h
      simp only at h
      cases hsub with
      | cons _ hsub2 =>
        exact (arraySort_stable cmp a b c hab hc0 xs s hs hsub2).trans
          (sortInsert_sublist cmp x s ys h)
      | cons₂ _ hsub2 =>
        have hb : b ∈ xs := List.singleton_sublist.mp hsub2
        have hbs : b ∈ s := (arraySort_perm cmp xs s hs).symm.subset hb
        exact sortInsert_pair cmp a b c hab hc0 s ys h hbs

theorem jsnum_lt_irrefl (x : JSNum) : x.lt x = false := by
  cases x <;> simp [JSNum.lt]

theorem sortComparator_equal (k : SortKey) (o : SortOrder) (a b : Flat)
    (h : sortKeysEqual k a b) : sortComparator k o a b = .ok 0 := by
  cases k with
  | city =>
    obtain ⟨sa, sb, ha, hb, hl⟩ := h
    exact sortComparator_city_equal o a b sa sb ha hb hl
  | price =>
    simp only [sortKeysEqual] at h
    simp [sortComparator, h, JSNum.gt, jsnum_lt_irrefl, orderResult]
  | area =>
    simp only [sortKeysEqual] at h
    simp [sortComparator, h, JSNum.gt, jsnum_lt_irrefl, orderResult]

/-- C17 (sort stability): two listings whose sort keys compare equal and that
occur in this order in the input occur in this order in every sequence the sort
returns, and the sort does return one for price and area, and for city when
every listing has a string city. -/
theorem sort_stability (k : SortKey) (o : SortOrder) (xs : List Flat) (a b : Flat)
    (hab : List.Sublist [a, b] xs) (heq : sortKeysEqual k a b) :
    (∀ ys, sortFlats (some k) o xs = .ok ys → List.Sublist [a, b] ys) ∧
    ((k = .city → ∀ x ∈ xs, x.city.isSome = true) →
      ∃ ys, sortFlats (some k) o xs = .ok ys) := by
  constructor
  · intro ys hys
    simp only [sortFlats] at hys
    exact arraySort_stable _ a b 0 (sortComparator_equal k o a b heq) (le_refl 0) xs ys hys hab
  · intro hcity
    cases k with
    | city => exact ⟨_, sortFlats_city o xs (hcity rfl)⟩
    | price => exact ⟨_, sortFlats_numeric .price (Or.inl rfl) o xs⟩
    | area => exact ⟨_, sortFlats_numeric .area (Or.inr rfl) o xs⟩

/-- Two listings with price 1500 keep their order when sorted by price, an
instance of `sort_stability`. -/
theorem sort_stability_witness :
    List.Sublist [vernonDear, kelowna]
      [vernonDear, noCity, kelowna] ∧
    sortKeysEqual .price vernonDear kelowna ∧
    sortFlats (some .price) .asc [vernonDear, noCity, kelowna] =
      .ok [noCity, vernonDear, kelowna] ∧
    (∀ ys, sortFlats (some .price) .asc
        [vernonDear, noCity, kelowna] = .ok ys →
      List.Sublist [vernonDear, kelowna] ys) :=
  ⟨by decide, by show numericKey .price vernonDear = numericKey .price kelowna; decide,
    by decide,
    (sort_stability .price .asc [vernonDear, noCity, kelowna]
      vernonDear kelowna (by decide)
      (by show numericKey .price vernonDear = numericKey .price kelowna; decide)).1⟩

/-- C18 (totality of the pipeline) fails on the code: with no filter and the sort
key city, the records Kelowna, one without a city, Vernon make the comparator
call `toLowerCase` on `undefined`, and the pipeline raises a TypeError instead of
returning a sequence. -/
theorem sort_by_city_raises :
    applyFiltersAndRender ⟨"", "", "", "", ""⟩ (some .city) .asc [kelowna, noCity, vernon] =
      .error .typeError ∧
    applyFiltersAndRender ⟨"", "", "", "", ""⟩ (some .city) .desc [kelowna, noCity, vernon] =
      .error .typeError ∧
    sortComparator .city .asc kelowna noCity = .error .typeError ∧
    sortComparator .city .asc vernon noCity = .error .typeError := by
  decide

/-! ## Unguarded `JSON.parse` -/

/-- C19 (load never raises) fails on the code: text that is not JSON makes the
page load of either page raise a SyntaxError, and JSON that is not an array is
assigned as it is; only a missing entry gives the empty sequence and a JSON
array its listings. -/
theorem page_load_outcomes (other : Stored) (flats : List Flat) (truthy : Bool) :
    flatsPageLoad ⟨.invalid, other⟩ = .error .syntaxError ∧
    homePageLoad ⟨other, .invalid⟩ = .error .syntaxError ∧
    flatsPageLoad ⟨.nonArray truthy, other⟩ = .ok .notArray ∧
    homePageLoad ⟨other, .nonArray truthy⟩ = .ok .notArray ∧
    flatsPageLoad ⟨.absent, other⟩ = .ok (.flats []) ∧
    homePageLoad ⟨other, .absent⟩ = .ok (.flats []) ∧
    flatsPageLoad ⟨.array flats, other⟩ = .ok (.flats flats) ∧
    homePageLoad ⟨other, .array flats⟩ = .ok (.flats flats) :=
  ⟨rfl, rfl, rfl, rfl, rfl, rfl, rfl, rfl⟩

/-- C20 (toggle atomicity) fails on the code: when the stored favourites are not
JSON, the toggle has already written All-Listings with the new flag when
`JSON.parse` raises, and Favorites is left as it was. -/
theorem toggle_partial_write (L : Flat) (v : Bool) (master : List Flat) (rf : Stored) :
    (favoriteChange L v ⟨master, ⟨rf, .invalid⟩⟩).error = some .syntaxError ∧
    (favoriteChange L v ⟨master, ⟨rf, .invalid⟩⟩).state.storage.renteaseFlats =
      .array (updateFirst (sameFlat L) (setFavorite v) master) ∧
    (favoriteChange L v ⟨master, ⟨rf, .invalid⟩⟩).state.storage.favoriteFlats = .invalid ∧
    (favoriteChange vernon true
        ⟨[kelowna, vernon], ⟨.array [kelowna, vernon], .invalid⟩⟩).state.storage =
      ⟨.array [kelowna, setFavorite true vernon], .invalid⟩ := by
  refine ⟨?_, ?_, ?_, by decide⟩
  · simp [favoriteChange, parseOrEmpty]
  · simp [favoriteChange, parseOrEmpty, keyTest_eq]
  · simp [favoriteChange, parseOrEmpty]

/-! ## Lookup miss and unparsable values -/

/-- C21 (identity lookup miss): when no All-Listings record has the identity key
of L, a toggle to true completes, leaves the All-Listings list as it is (in
memory and as persisted) and, when Favorites has no record with the key, appends
L itself to Favorites; a toggle to false completes, leaves All-Listings as it is
and removes the records with the key from Favorites. -/
theorem lookup_miss (master : List Flat) (rf : Stored) (favs : List Flat) (L : Flat)
    (hmiss : ∀ x ∈ master, getCoreProperties x ≠ getCoreProperties L) :
    ((favoriteChange L true ⟨master, ⟨rf, .array favs⟩⟩).error = none ∧
      (favoriteChange L true ⟨master, ⟨rf, .array favs⟩⟩).state.allFlatsArray = master ∧
      (favoriteChange L true ⟨master, ⟨rf, .array favs⟩⟩).state.storage.renteaseFlats =
        .array master ∧
      ((∀ r ∈ favs, getCoreProperties r ≠ getCoreProperties L) →
        (favoriteChange L true ⟨master, ⟨rf, .array favs⟩⟩).state.storage.favoriteFlats =
          .array (favs ++ [L]))) ∧
    ((favoriteChange L false ⟨master, ⟨rf, .array favs⟩⟩).error = none ∧
      (favoriteChange L false ⟨master, ⟨rf, .array favs⟩⟩).state.allFlatsArray = master ∧
      (favoriteChange L false ⟨master, ⟨rf, .array favs⟩⟩).state.storage.renteaseFlats =
        .array master ∧
      (favoriteChange L false ⟨master, ⟨rf, .array favs⟩⟩).state.storage.favoriteFlats =
        .array (favs.filter (fun r => decide (getCoreProperties r ≠ getCoreProperties L)))) := by
  have hnone : ∀ x ∈ master, sameFlat L x = false :=
    fun x hx => (sameFlat_false_iff L x).mpr (hmiss x hx)
  have hfind : master.find? (sameFlat L) = none := by
    rw [List.find?_eq_none]
    intro x hx
    simp [hnone x hx]
  rw [favoriteChange_ok L true master rf (.array favs) favs rfl,
    favoriteChange_ok L false master rf (.array favs) favs rfl]
  simp only [updateFirst_none _ _ master hnone, hfind]
  refine ⟨⟨by trivial, by trivial, by trivial, ?_⟩, by trivial, by trivial, by trivial, ?_⟩
  · intro hfav
    simp [any_sameFlat_false L favs hfav]
  · simp [sameFlat]

/-- Favouriting the Vernon listing when All-Listings holds only Kelowna, an
instance of `lookup_miss`. -/
theorem lookup_miss_witness :
    (∀ x ∈ [kelowna], getCoreProperties x ≠ getCoreProperties vernon) ∧
    (favoriteChange vernon true ⟨[kelowna], ⟨.array [kelowna], .array []⟩⟩).error = none ∧
    (favoriteChange vernon true ⟨[kelowna], ⟨.array [kelowna], .array []⟩⟩).state.storage =
      ⟨.array [kelowna], .array [vernon]⟩ :=
  ⟨by decide,
    (lookup_miss [kelowna] (.array [kelowna]) [] vernon (by decide)).1.1,
    by decide⟩

theorem jsnum_nan_ge (x : JSNum) : JSNum.nan.ge x = false := rfl
theorem jsnum_nan_le (x : JSNum) : JSNum.nan.le x = false := rfl

theorem isNaN_eq_nan (x : JSNum) (h : x.isNaN = true) : x = JSNum.nan := by
  cases x <;> simp [JSNum.isNaN] at h ⊢

/-- C26 (unparsable listing value under a bound): a listing whose price (or
area) is present but does not parse is not in the filtered result as soon as a
bound on that field is supplied, although the sort step gives the same listing
the key 0. -/
theorem unparsable_value_excluded (inp : FilterInputs) (flats : List Flat) (L : Flat)
    (v : String) (hv : (parseFloat v).isNaN = true) :
    (L.price = some v →
      (boundCriterion inp.filterMinPrice ≠ none ∨ boundCriterion inp.filterMaxPrice ≠ none) →
      L ∉ filterFlats inp flats) ∧
    (L.area = some v →
      (boundCriterion inp.filterMinArea ≠ none ∨ boundCriterion inp.filterMaxArea ≠ none) →
      L ∉ filterFlats inp flats) ∧
    (L.price = some v → numericKey .price L = JSNum.fin 0) ∧
    (L.area = some v → numericKey .area L = JSNum.fin 0) := by
  have hnan := isNaN_eq_nan _ hv
  refine ⟨?_, ?_, ?_, ?_⟩
  · intro hp hb hmem
    rw [mem_filterFlats] at hmem
    obtain ⟨_, _, h2, h3, _, _⟩ := hmem
    rcases hb with hb | hb
    · have := h2 ((boundCriterion_ne_none _).mp hb)
      simp [minPriceCallback, hp, parseFloatValue, hnan, jsnum_nan_ge] at this
    · have := h3 ((boundCriterion_ne_none _).mp hb)
      simp [maxPriceCallback, hp, parseFloatValue, hnan, jsnum_nan_le] at this
  · intro hp hb hmem
    rw [mem_filterFlats] at hmem
    obtain ⟨_, _, _, _, h4, h5⟩ := hmem
    rcases hb with hb | hb
    · have := h4 ((boundCriterion_ne_none _).mp hb)
      simp [minAreaCallback, hp, parseFloatValue, hnan, jsnum_nan_ge] at this
    · have := h5 ((boundCriterion_ne_none _).mp hb)
      simp [maxAreaCallback, hp, parseFloatValue, hnan, jsnum_nan_le] at this
  · intro hp
    simp [numericKey, Flat.get, hp, parseFloatValue, hnan, JSNum.orZero]
  · intro hp
    simp [numericKey, Flat.get, hp, parseFloatValue, hnan, JSNum.orZero]

/-- A listing with price "abc" and the price range from -10 to 10, an instance of
`unparsable_value_excluded`. -/
theorem unparsable_value_excluded_witness :
    (parseFloat "abc").isNaN = true ∧ priceless.price = some "abc" ∧
    boundCriterion "-10" ≠ none ∧ boundCriterion "10" ≠ none ∧
    priceless ∉ filterFlats ⟨"", "-10", "10", "", ""⟩ [kelowna, priceless] ∧
    filterFlats ⟨"", "-10", "", "", ""⟩ [kelowna, priceless] = [kelowna] ∧
    numericKey .price priceless = JSNum.fin 0 :=
  ⟨by decide, rfl, by decide, by decide,
    (unparsable_value_excluded ⟨"", "-10", "10", "", ""⟩ [kelowna, priceless] priceless "abc"
      (by decide)).1 rfl (Or.inl (by decide)),
    by decide, by decide⟩

/-! ## Registration of a flat, rendering, session -/

theorem registerFlat_array (form : FlatForm) (flats : List Flat) :
    registerFlat true form (.array flats) =
      if flats.any (sameFlat (newFlat form)) then (.array flats, .duplicate)
      else (.array (flats ++ [newFlat form]), .added) := by
  unfold registerFlat
  simp only [keyTest_eq, parseOrEmpty]
  rfl

/-- C22 (registration dedup): when a stored flat has the identity key of the
submitted flat, the registration is rejected and the stored sequence is
unchanged; otherwise the submitted flat is appended at the end, the earlier
records being unchanged; so identity keys that are pairwise distinct before a
registration are pairwise distinct after it. -/
theorem registration_dedup (form : FlatForm) (flats : List Flat) :
    ((∃ f ∈ flats, getCoreProperties f = getCoreProperties (newFlat form)) →
      registerFlat true form (.array flats) = (.array flats, .duplicate)) ∧
    ((∀ f ∈ flats, getCoreProperties f ≠ getCoreProperties (newFlat form)) →
      registerFlat true form (.array flats) = (.array (flats ++ [newFlat form]), .added)) ∧
    ((flats.map getCoreProperties).Nodup →
      ((registerFlat true form (.array flats)).1.listings.map getCoreProperties).Nodup) := by
  rw [registerFlat_array]
  refine ⟨?_, ?_, ?_⟩
  · intro h
    simp [any_sameFlat_true _ flats h]
  · intro h
    simp [any_sameFlat_false _ flats h]
  · intro hnd
    by_cases hany : flats.any (sameFlat (newFlat form)) = true
    · simp only [hany, if_true, listings_array]
      exact hnd
    · have hany2 : flats.any (sameFlat (newFlat form)) = false := by simpa using hany
      simp only [hany2, Bool.false_eq_true, if_false, listings_array, List.map_append,
        List.map_cons, List.map_nil]
      rw [List.nodup_append]
      refine ⟨hnd, List.nodup_singleton _, ?_⟩
      rw [List.disjoint_singleton]  
      intro hmem
      obtain ⟨f, hf, hk⟩ := List.mem_map.mp hmem
      exact hany (any_sameFlat_true _ flats ⟨f, hf, hk⟩)

/-- C24 (row rendering): for a non-empty sequence the table has one row per
listing, in the order of the sequence, and the row of a listing holds the eight
data cells city, street, number, area, "Yes" or "No", yearBuilt, price,
availableDate, a missing field shown as "N/A", followed by the control cell. -/
theorem row_rendering (flats : List Flat) (hne : flats ≠ []) :
    (renderFlatsTable flats).length = flats.length ∧
    ∀ (i : Nat) (f : Flat), flats[i]? = some f →
      (renderFlatsTable flats)[i]? =
        some (.listing
          [f.city.getD "N/A", f.street.getD "N/A", f.number.getD "N/A", f.area.getD "N/A",
           (if f.ac = some true then "Yes" else "No"),
           f.yearBuilt.getD "N/A", f.price.getD "N/A", f.availableDate.getD "N/A"]
          (f.isFavorite.getD false)) := by
  have hlen : flats.length > 0 := List.length_pos.mpr hne
  have hcell : ∀ v : Option String, cellText v = v.getD "N/A" := by
    intro v; cases v <;> rfl
  unfold renderFlatsTable
  simp only [hlen, if_true, List.length_map, true_and]
  intro i f hi
  rw [List.getElem?_map, hi]
  simp [createFlatRow, hcell]

/-- The rows of the Kelowna listing and of the record without a city, an instance
of `row_rendering`. -/
theorem row_rendering_witness :
    [kelowna, noCity] ≠ [] ∧
    renderFlatsTable [kelowna, noCity] =
      [.listing ["Kelowna", "Main St", "12", "60", "Yes", "1999", "1500", "2025-01-01"] false,
       .listing ["N/A", "Hill Rd", "3", "50", "No", "2010", "1200", "N/A"] false] ∧
    (renderFlatsTable [kelowna, noCity]).length = [kelowna, noCity].length :=
  ⟨by decide, by decide, (row_rendering [kelowna, noCity] (by decide)).1⟩

/-- C25 (session validity) fails on the code: with a login timestamp that is not
a number `parseInt` gives NaN, the comparison with the expiry window is false and
`validateSession` returns true, at any time, leaving the session as it is.  On
numeric timestamps the boundary of 3,600,000 ms is still valid and one
millisecond more is not; an absent or empty entry gives false. -/
theorem session_valid_with_unparsable_timestamp (now : Nat) :
    parseInt10 "abc" = JSNum.nan ∧
    validateSession now ⟨some "a@b.c", some "abc"⟩ = (true, ⟨some "a@b.c", some "abc"⟩) ∧
    (validateSession 1762300000000 ⟨some "a@b.c", some "1762296400000"⟩).1 = true ∧
    (validateSession 1762300000000 ⟨some "a@b.c", some "1762296399999"⟩).1 = false ∧
    (validateSession 1762300000000 ⟨some "a@b.c", none⟩).1 = false ∧
    (validateSession 1762300000000 ⟨some "a@b.c", some ""⟩).1 = false ∧
    (validateSession 1762300000000 ⟨none, some "1762296400000"⟩).1 = false ∧
    (validateSession 1762300000000 ⟨some "", some "1762296400000"⟩).1 = false := by
  have hnan : parseInt10 "abc" = JSNum.nan := by decide
  refine ⟨hnan, ?_, by decide, by decide, by decide, by decide, by decide, by decide⟩
  have h1 : truthyItem (some "a@b.c") = true := by decide
  have h2 : truthyItem (some "abc") = true := by decide
  simp [validateSession, h1, h2, hnan, JSNum.sub, JSNum.gt, JSNum.lt]

/-- C23 (session precondition) fails on the code for the favourites page: its
page-load handler tests only `currentUserEmail`, so with the login timestamp
absent or expired it still loads the collection and runs the pipeline.  The
all-flats page stops whenever `validateSession` returns false, which it does
when either entry is absent or empty or the timestamp is older than the window. -/
theorem home_page_runs_without_valid_session :
    (∀ (storage : Storage),
      homePageStart ⟨some "a@b.c", none⟩ storage = some (homePageLoad storage) ∧
      homePageStart ⟨some "a@b.c", some "0"⟩ storage = some (homePageLoad storage)) ∧
    (validateSession 1762300000000 ⟨some "a@b.c", some "0"⟩).1 = false ∧
    homePageStart ⟨some "a@b.c", none⟩ ⟨.absent, .array [kelowna]⟩ =
      some (.ok (.flats [kelowna])) ∧
    (∀ (now : Nat) (session : Session) (storage : Storage),
      (validateSession now session).1 = false → flatsPageStart now session storage = none) ∧
    (∀ (now : Nat) (session : Session),
      (truthyItem session.currentUserEmail = false ∨ truthyItem session.loginTimestamp = false ∨
        ((JSNum.fin now).sub (parseInt10 (session.loginTimestamp.getD ""))).gt
          (JSNum.fin 3600000) = true) →
      (validateSession now session).1 = false) := by
  refine ⟨?_, by decide, by decide, ?_, ?_⟩
  · intro storage
    exact ⟨rfl, rfl⟩
  · intro now session storage h
    simp [flatsPageStart, h]
  · intro now session h
    unfold validateSession
    by_cases h1 : truthyItem session.currentUserEmail = true
    · by_cases h2 : truthyItem session.loginTimestamp = true
      · rcases h with h | h | h
        · rw [h] at h1; exact absurd h1 (by simp)
        · rw [h] at h2; exact absurd h2 (by simp)
        · have h3 : SESSION_DURATION_MS = 3600000 := by decide
          simp [h1, h2, h3, h]
      · simp [h1, h2]
    · simp [h1]

/-! ## The pipeline on the heap -/

theorem heap_read_alloc_old (h : Heap) (xs : List Flat) (ref : Nat)
    (href : ref < h.arrays.length) : (h.alloc xs).1.read ref = h.read ref := by
  simp [Heap.alloc, Heap.read, List.getD_eq_getElem?_getD, List.getElem?_append_left href]

theorem heap_read_alloc_new (h : Heap) (xs : List Flat) :
    (h.alloc xs).1.read (h.alloc xs).2 = xs := by
  simp [Heap.alloc, Heap.read, List.getD_eq_getElem?_getD]

theorem heap_read_write_same (h : Heap) (xs : List Flat) (ref : Nat)
    (href : ref < h.arrays.length) : (h.write ref xs).read ref = xs := by
  simp [Heap.write, Heap.read, List.getD_eq_getElem?_getD, href]

theorem heap_read_write_other (h : Heap) (xs : List Flat) (ref r : Nat) (hne : r ≠ ref) :
    (h.write r xs).read ref = h.read ref := by
  simp [Heap.write, Heap.read, List.getD_eq_getElem?_getD, List.getElem?_set_ne hne]

/-- A guarded filter step keeps every array that existed before the pipeline started. -/
theorem filterStep_keeps (h : Heap) (guard : Bool) (callback : Flat → Bool) (st : Heap × Nat)
    (content : List Flat)
    (hst : (∀ r, r < h.arrays.length → st.1.read r = h.read r) ∧ h.arrays.length ≤ st.2 ∧
      st.2 < st.1.arrays.length ∧ st.1.read st.2 = content) :
    (∀ r, r < h.arrays.length → (filterStep guard callback st).1.read r = h.read r) ∧
      h.arrays.length ≤ (filterStep guard callback st).2 ∧
      (filterStep guard callback st).2 < (filterStep guard callback st).1.arrays.length ∧
      (filterStep guard callback st).1.read (filterStep guard callback st).2 =
        (if guard then content.filter callback else content) := by
  obtain ⟨h1, h2, h3, h4⟩ := hst
  cases guard with
  | false => exact ⟨h1, h2, h3, by simpa [filterStep] using h4⟩
  | true =>
    simp only [filterStep, if_true]
    refine ⟨?_, ?_, ?_, ?_⟩
    · intro r hr
      rw [heap_read_alloc_old _ _ r (by omega)]
      exact h1 r hr
    · simp only [Heap.alloc]; omega
    · simp [Heap.alloc]
    · rw [heap_read_alloc_new, h4]


/-- The heap after the copy and the five filter steps: the arrays that existed
before are untouched and `filteredFlats` refers to a new array holding the
filtered listings. -/
theorem pipeline_filter_state (inp : FilterInputs) (ref : Nat) (h : Heap) :
    ∃ st : Heap × Nat,
      (∀ (k : Option SortKey) (o : SortOrder),
        applyFiltersAndRenderOnHeap inp k o ref h =
          match k with
          | none => .ok st
          | some key =>
            match arraySort (sortComparator key o) (st.1.read st.2) with
            | .error e => .error e
            | .ok sorted => .ok (st.1.write st.2 sorted, st.2)) ∧
      (∀ r, r < h.arrays.length → st.1.read r = h.read r) ∧ h.arrays.length ≤ st.2 ∧
      st.2 < st.1.arrays.length ∧ st.1.read st.2 = filterFlats inp (h.read ref) := by
  have h0 : (∀ r, r < h.arrays.length → (h.alloc (h.read ref)).1.read r = h.read r) ∧
      h.arrays.length ≤ (h.alloc (h.read ref)).2 ∧
      (h.alloc (h.read ref)).2 < (h.alloc (h.read ref)).1.arrays.length ∧
      (h.alloc (h.read ref)).1.read (h.alloc (h.read ref)).2 = h.read ref :=
    ⟨fun r hr => heap_read_alloc_old h _ r hr, by simp [Heap.alloc], by simp [Heap.alloc],
      heap_read_alloc_new h _⟩
  have h1 := filterStep_keeps h (decide (toLowerCase (trim inp.filterCity) ≠ ""))
    (cityCallback (toLowerCase (trim inp.filterCity))) _ _ h0
  have h2 := filterStep_keeps h (!(parseFloat inp.filterMinPrice).isNaN)
    (minPriceCallback (parseFloat inp.filterMinPrice)) _ _ h1
  have h3 := filterStep_keeps h (!(parseFloat inp.filterMaxPrice).isNaN)
    (maxPriceCallback (parseFloat inp.filterMaxPrice)) _ _ h2
  have h4 := filterStep_keeps h (!(parseFloat inp.filterMinArea).isNaN)
    (minAreaCallback (parseFloat inp.filterMinArea)) _ _ h3
  have h5 := filterStep_keeps h (!(parseFloat inp.filterMaxArea).isNaN)
    (maxAreaCallback (parseFloat inp.filterMaxArea)) _ _ h4
  refine ⟨_, ?_, h5.1, h5.2.1, h5.2.2.1, ?_⟩
  · intro k o
    rfl
  · rw [h5.2.2.2]
    simp [filterFlats]

/-- C27 (the sort is a permutation and leaves the source untouched): when every
listing of `allFlatsArray` has a string city, the pipeline with any sort key and
direction returns; the array handed to the renderer is a permutation of the
filtered input; `allFlatsArray`, like every array that existed before, still
holds the same listings in the same order; and the array handed over is the
result of the pipeline computed on values. -/
theorem sort_permutation_and_frame (inp : FilterInputs) (k : SortKey) (o : SortOrder)
    (ref : Nat) (h : Heap) (href : ref < h.arrays.length)
    (hcity : ∀ x ∈ h.read ref, x.city.isSome = true) :
    ∃ (after : Heap) (out : Nat),
      applyFiltersAndRenderOnHeap inp (some k) o ref h = .ok (after, out) ∧
      List.Perm (after.read out) (filterFlats inp (h.read ref)) ∧
      after.read ref = h.read ref ∧
      (∀ r, r < h.arrays.length → after.read r = h.read r) ∧
      applyFiltersAndRender inp (some k) o (h.read ref) = .ok (after.read out) := by
  obtain ⟨st, hrun, hkeep, hge, hlt, hcontent⟩ := pipeline_filter_state inp ref h
  have hsort : ∃ sorted, sortFlats (some k) o (filterFlats inp (h.read ref)) = .ok sorted := by
    cases k with
    | city =>
      exact ⟨_, sortFlats_city o _
        (fun x hx => hcity x ((filterFlats_sublist inp _).subset hx))⟩
    | price => exact ⟨_, sortFlats_numeric .price (Or.inl rfl) o _⟩
    | area => exact ⟨_, sortFlats_numeric .area (Or.inr rfl) o _⟩
  obtain ⟨sorted, hsorted⟩ := hsort
  have hsorted2 : arraySort (sortComparator k o) (st.1.read st.2) = .ok sorted := by
    rw [hcontent]
    simpa [sortFlats] using hsorted
  refine ⟨st.1.write st.2 sorted, st.2, ?_, ?_, ?_, ?_, ?_⟩
  · rw [hrun (some k) o]
    simp only [hsorted2]
  · rw [heap_read_write_same _ _ _ hlt]
    exact arraySort_perm _ _ _ (by simpa [sortFlats] using hsorted)
  · rw [heap_read_write_other _ _ _ _ (by omega)]
    exact hkeep ref href
  · intro r hr
    rw [heap_read_write_other _ _ _ _ (by omega)]
    exact hkeep r hr
  · rw [heap_read_write_same _ _ _ hlt]
    exact hsorted

/-- Sorting three listings by city, descending, on the heap, an instance of
`sort_permutation_and_frame`. -/
theorem sort_permutation_and_frame_witness :
    (0 < (Heap.mk [[kelowna, vernon, kelownaUpper]]).arrays.length) ∧
    applyFiltersAndRenderOnHeap ⟨"", "", "", "", ""⟩ (some .city) .desc 0
        ⟨[[kelowna, vernon, kelownaUpper]]⟩ =
      .ok (⟨[[kelowna, vernon, kelownaUpper], [vernon, kelowna, kelownaUpper]]⟩, 1) ∧
    ∃ (after : Heap) (out : Nat),
      applyFiltersAndRenderOnHeap ⟨"", "", "", "", ""⟩ (some .city) .desc 0
        ⟨[[kelowna, vernon, kelownaUpper]]⟩ = .ok (after, out) ∧
      after.read 0 = (Heap.mk [[kelowna, vernon, kelownaUpper]]).read 0 :=
  ⟨by decide, by decide,
    (sort_permutation_and_frame ⟨"", "", "", "", ""⟩ .city .desc 0
      ⟨[[kelowna, vernon, kelownaUpper]]⟩ (by decide) (by decide)).imp
      (fun _ hh => hh.imp (fun _ hout => ⟨hout.1, hout.2.2.1⟩))⟩

/-! ## Accounts -/

/-- C28 (register then login) fails on the code: the password "abc1! ", with a
trailing space, matches the complexity pattern and is stored as typed, while the
login handler trims what is typed, so the login with the same email and the same
password finds no account. -/
theorem register_then_login_fails_on_padded_password :
    passwordPattern "abc1! " = true ∧
    registerSubmit true 5 ⟨"Ann", "Lee", "ann@example.com", "2000-01-01", "abc1! ", "abc1! "⟩
        ⟨.array [], ⟨none, none⟩⟩ =
      (⟨.array [⟨"ann@example.com", "abc1! ", "Ann", "Lee", "2000-01-01"⟩],
        ⟨some "ann@example.com", some "5"⟩⟩, .registered) ∧
    (loginSubmit true 6 "ann@example.com" "abc1! "
        (registerSubmit true 5
          ⟨"Ann", "Lee", "ann@example.com", "2000-01-01", "abc1! ", "abc1! "⟩
          ⟨.array [], ⟨none, none⟩⟩).1).2 = .invalidCredentials ∧
    trim "abc1! " = "abc1!" := by
  decide

/-- Login after registration succeeds when neither text is changed by trimming. -/
theorem register_then_login_trimmed (now later : Nat) (form : RegisterForm)
    (users : List User) (session : Session)
    (hreg : (registerSubmit true now form ⟨.array users, session⟩).2 = .registered)
    (hemail : trim form.email = form.email) (hpw : trim form.password = form.password)
    (hne : form.email ≠ "") :
    (loginSubmit true later form.email form.password
        (registerSubmit true now form ⟨.array users, session⟩).1).2 =
      .loggedIn ⟨form.email, form.password, form.firstName, form.lastName, form.birthDate⟩ := by
  unfold registerSubmit at hreg ⊢
  simp only [Bool.not_true, Bool.false_eq_true, if_false, parseUsersOrEmpty] at hreg ⊢
  by_cases hpat : passwordPattern form.password = true
  · simp only [hpat, Bool.not_true, Bool.false_eq_true, if_false] at hreg ⊢
    by_cases hconf : form.password = form.confirmPassword
    · simp only [hconf, ne_eq, not_true_eq_false, if_false] at hreg ⊢
      by_cases hany : users.any (fun user => decide (user.email = form.email)) = true
      · simp [hany] at hreg
      · simp only [hany, if_false] at hreg ⊢
        have hpwne : form.confirmPassword ≠ "" := by
          intro h
          rw [← hconf] at h
          rw [h] at hpat
          exact absurd hpat (by decide)
        have hnone : users.find? (fun user =>
            decide (user.email = form.email) && decide (user.password = form.confirmPassword))
            = none := by
          rw [List.find?_eq_none]
          intro u hu
          simp only [List.any_eq_true, not_exists, not_and, decide_eq_true_eq] at hany
          simp [hany u hu]
        rw [hconf] at hpw
        simp [loginSubmit, hemail, hpw, hne, hpwne, parseUsersOrEmpty, List.find?_append, hnone]
    · simp [hconf] at hreg
  · simp [hpat] at hreg

end RentEase
